import Mathlib

/-!
RGBtoCMYK: ICC marker codec, ICC header validator, quantization tables and pipeline

A shallow embedding of `internal/jpeg/icc.go` (`ChunkICC`, `ExtractICC`), of
`internal/color/profiles.go` (`ParseProfileInfo`), of `internal/jpeg/quant.go`
(`ScaleQuantTable`, `GenerateQuantTables`) and of `internal/pipeline/pipeline.go`
(`Run`), with the properties of the specification proved about it.

Conventions of the embedding:

* a Go `byte` is a `Fin 256`; a Go `[]byte` is a `List Byte`; a Go `int` used as a
  length or an index is a `Nat` (a slice length never gets near `2^63`), and a
  conversion that truncates (`byte(x)`, `uint32(x)`) is written with an explicit `%`;
* a Go `int` that is a value (a quality, a table entry) is an `Int`, and an operation
  on it that can leave 64 bits is wrapped with `wrapInt64`;
* a function returning `(T, error)` returns `Except _ T`; an error built with
  `fmt.Errorf` / `errors.New` is a constructor carrying the values the message
  is formatted from;
* a returned `[]byte` that may be the nil slice is an `Option (List Byte)`, with
  `none` for nil.
-/

deriving instance DecidableEq for Except

namespace RGBtoCMYK

/-- A Go `byte`. -/
abbrev Byte := Fin 256

/-- The conversion `byte(x)` of a non-negative `int`: the low eight bits. -/
def toByte (x : Nat) : Byte := ⟨x % 256, Nat.mod_lt x (by decide)⟩

/-- The result of an arithmetic operation on Go `int` (64 bits, two's complement): the
mathematical result wrapped into `[-2^63, 2^63)`. It is written where an operand is
not bounded by the code; on the bounded operands of `quant.go` (a quality already
clamped to `[1, 100]`) the operation is exact and written plainly. -/
def wrapInt64 (x : Int) : Int := (x + 2 ^ 63) % 2 ^ 64 - 2 ^ 63

/-- The conversion `uint16(x)` of an `int`: the low 16 bits. -/
def toUint16 (x : Int) : Nat := (x % 2 ^ 16).toNat

namespace jpeg

/-- The constant `iccMarkerTag = "ICC_PROFILE\x00"`, as its 12 bytes. -/
def iccMarkerTag : List Byte := [73, 67, 67, 95, 80, 82, 79, 70, 73, 76, 69, 0]

/-- The constant `maxChunkDataSize = 65519`. -/
def maxChunkDataSize : Nat := 65519

/-- The errors of `icc.go`, one constructor per `fmt.Errorf` / `errors.New` site. -/
inductive ICCError where
  /-- The message "invalid ICC chunk sequence %d/%d". -/
  | invalidSequence (seq count : Nat)
  /-- The message "inconsistent ICC chunk count: %d vs %d". -/
  | inconsistentCount (count expectedCount : Nat)
  /-- The message "expected %d ICC chunks, found %d". -/
  | missingChunks (expectedCount found : Nat)
  /-- The message "empty ICC profile". -/
  | emptyProfile
  /-- The message "ICC profile too large: needs %d chunks (max 255)". -/
  | tooLarge (numChunks : Nat)
  deriving DecidableEq, Repr

/-- The local type `chunk` of `ExtractICC`. -/
structure chunk where
  seq : Nat
  data : List Byte
  deriving DecidableEq, Repr

/-- The body of the loop `for _, m := range markers` of `ExtractICC`, as a recursion
on the markers still to be read, threading the variables `chunks` and
`expectedCount`; an early `return nil, err` is `.error err`. -/
def extractLoop : List (List Byte) → List chunk → Nat → Except ICCError (List chunk × Nat)
  | [], chunks, expectedCount => .ok (chunks, expectedCount)
  | m :: rest, chunks, expectedCount =>
    if m.length < 14 then
      extractLoop rest chunks expectedCount
    else if m.take 12 ≠ iccMarkerTag then
      extractLoop rest chunks expectedCount
    else
      let seq := (m.getD 12 0).val
      let count := (m.getD 13 0).val
      if seq = 0 ∨ seq > count then
        .error (.invalidSequence seq count)
      else if expectedCount = 0 then
        extractLoop rest (chunks ++ [⟨seq, m.drop 14⟩]) count
      else if count ≠ expectedCount then
        .error (.inconsistentCount count expectedCount)
      else
        extractLoop rest (chunks ++ [⟨seq, m.drop 14⟩]) expectedCount

/-- The call `sort.Slice(chunks, func(i, j int) bool { return chunks[i].seq < chunks[j].seq })`.
A stable insertion sort by `seq`. `sort.Slice` sorts by `seq` too but does not promise
stability: the order it leaves among chunks of equal `seq` is the Go runtime's choice,
and no theorem below depends on that order. -/
def sortSlice (chunks : List chunk) : List chunk :=
  chunks.insertionSort (fun a b => a.seq ≤ b.seq)

/-- The value of `buf.Bytes()` for a zero `bytes.Buffer` into which the chunks' data
were written in order: the bytes written, and the nil slice when no byte was written
(the buffer never allocates). -/
def bufferBytes (chunks : List chunk) : Option (List Byte) :=
  let written := (chunks.map chunk.data).flatten
  if written = [] then none else some written

/-- `ExtractICC` of `icc.go`. The result `.ok none` is the return `nil, nil`. -/
def ExtractICC (markers : List (List Byte)) : Except ICCError (Option (List Byte)) :=
  match extractLoop markers [] 0 with
  | .error e => .error e
  | .ok (chunks, expectedCount) =>
    if chunks.length = 0 then
      .ok none
    else if chunks.length ≠ expectedCount then
      .error (.missingChunks expectedCount chunks.length)
    else
      .ok (bufferBytes (sortSlice chunks))

/-- A marker that `ExtractICC` recognizes: it passes both `continue` tests of the loop,
so it has at least 14 bytes and its first 12 bytes are the tag. -/
def recognized (m : List Byte) : Bool :=
  decide (¬ m.length < 14 ∧ m.take 12 = iccMarkerTag)

/-- The sequence byte `m[12]` of a marker, as an `int`. -/
def seqOf (m : List Byte) : Nat := (m.getD 12 0).val

/-- The total-count byte `m[13]` of a marker, as an `int`. -/
def countOf (m : List Byte) : Nat := (m.getD 13 0).val

/-- The `chunk` that the loop of `ExtractICC` appends for a recognized marker. -/
def toChunk (m : List Byte) : chunk := ⟨seqOf m, m.drop 14⟩

/-- One iteration of the loop of `ChunkICC`: the payload appended for index `i`
(`stop` is the variable `end`, `profile[start:end]` is `(profile.take stop).drop start`). -/
def chunkAt (profile : List Byte) (numChunks i : Nat) : List Byte :=
  let start := i * maxChunkDataSize
  let stop := start + maxChunkDataSize
  let stop := if stop > profile.length then profile.length else stop
  let header := iccMarkerTag ++ [toByte (i + 1), toByte numChunks]
  header ++ (profile.take stop).drop start

/-- `ChunkICC` of `icc.go`. -/
def ChunkICC (profile : List Byte) : Except ICCError (List (List Byte)) :=
  if profile.length = 0 then
    .error .emptyProfile
  else
    let numChunks := (profile.length + maxChunkDataSize - 1) / maxChunkDataSize
    if numChunks > 255 then
      .error (.tooLarge numChunks)
    else
      .ok ((List.range numChunks).map (chunkAt profile numChunks))

/-- The chunk count computed by `ChunkICC`. -/
def numChunksOf (profile : List Byte) : Nat :=
  (profile.length + maxChunkDataSize - 1) / maxChunkDataSize

/-- The piece of the profile carried by chunk `i`. -/
def pieceAt (profile : List Byte) (i : Nat) : List Byte :=
  (profile.take ((i + 1) * maxChunkDataSize)).drop (i * maxChunkDataSize)

/-- The order that `sortSlice` sorts by. -/
def seqLe (a b : chunk) : Prop := a.seq ≤ b.seq

/-- The order `seqLe` made antisymmetric: equal sequence numbers only on equal chunks. -/
def seqLeStrict (a b : chunk) : Prop := a.seq ≤ b.seq ∧ (a.seq = b.seq → a = b)

instance seqLe_decidable : DecidableRel seqLe := fun a b => Nat.decLe a.seq b.seq

instance seqLe_total : IsTotal chunk seqLe := ⟨fun a b => Nat.le_total a.seq b.seq⟩

instance seqLe_trans : IsTrans chunk seqLe := ⟨fun _ _ _ hab hbc => Nat.le_trans hab hbc⟩

instance seqLeStrict_antisymm : IsAntisymm chunk seqLeStrict :=
  ⟨fun _ _ hab hba => hab.2 (Nat.le_antisymm hab.1 hba.1)⟩

/-- The constant table `stdLuminanceQuant` of `quant.go`, in source order. -/
def stdLuminanceQuantValues : List Int :=
  [16, 11, 10, 16, 24, 40, 51, 61,
   12, 12, 14, 19, 26, 58, 60, 55,
   14, 13, 16, 24, 40, 57, 69, 56,
   14, 17, 22, 29, 51, 87, 80, 62,
   18, 22, 37, 56, 68, 109, 103, 77,
   24, 35, 55, 64, 81, 104, 113, 92,
   49, 64, 78, 87, 103, 121, 120, 101,
   72, 92, 95, 98, 112, 100, 103, 99]

/-- The array `stdLuminanceQuant` of type `[64]int`: a Go array of 64 elements is a
function on `Fin 64`. -/
def stdLuminanceQuant : Fin 64 → Int :=
  fun i => stdLuminanceQuantValues.get (i.cast (by decide))

/-- `ScaleQuantTable` of `quant.go`. The loop `for i := 0; i < 64; i++` that fills
`table[i]` is the function `fun i => ...`; `/` on `int` truncates toward zero. -/
def ScaleQuantTable (base : Fin 64 → Int) (quality : Int) : Fin 64 → Nat :=
  let quality := if quality ≤ 0 then 1 else quality
  let quality := if quality > 100 then 100 else quality
  let scale := if quality < 50 then Int.tdiv 5000 quality else 200 - quality * 2
  fun i =>
    let val := Int.tdiv (wrapInt64 (wrapInt64 (base i * scale) + 50)) 100
    let val := if val < 1 then 1 else val
    let val := if val > 255 then 255 else val
    toUint16 val

/-- `GenerateQuantTables` of `quant.go`: the pair `(cmy, k)`. -/
def GenerateQuantTables (quality cmyReduction : Int) : (Fin 64 → Nat) × (Fin 64 → Nat) :=
  let cmyQuality := wrapInt64 (quality - cmyReduction)
  let cmyQuality := if cmyQuality < 1 then 1 else cmyQuality
  (ScaleQuantTable stdLuminanceQuant cmyQuality, ScaleQuantTable stdLuminanceQuant quality)

/-- The variable `scale` of `ScaleQuantTable` after lines 18-30, as a function of the
argument `quality`. -/
def scaleOf (quality : Int) : Int :=
  let quality := if quality ≤ 0 then 1 else quality
  let quality := if quality > 100 then 100 else quality
  if quality < 50 then Int.tdiv 5000 quality else 200 - quality * 2

/-- The value stored in `table[i]` by the loop body of `ScaleQuantTable`, as a function of
`base[i]` and `scale`. -/
def entryOf (b scale : Int) : Nat :=
  let val := Int.tdiv (wrapInt64 (wrapInt64 (b * scale) + 50)) 100
  let val := if val < 1 then 1 else val
  let val := if val > 255 then 255 else val
  toUint16 val

/-- Follows the spec's words (section 4.3): "Clamp `quality` to `[1,100]`". -/
def specQuality (quality : Int) : Int := max 1 (min 100 quality)

/-- Follows the spec's words (section 4.3):
"`scaleFactor = quality<50 ? floor(5000/quality) : 200 − 2·quality`", on the clamped
quality; `/` on `Int` is the floor for a positive divisor. -/
def specScaleFactor (quality : Int) : Int :=
  if specQuality quality < 50 then 5000 / specQuality quality else 200 - 2 * specQuality quality

/-- Follows the spec's words (section 4.3): "For each coefficient:
`clamp(round((base·scaleFactor)/100), 1, 255)`, rounding via `(x+50)/100` integer
arithmetic", with unbounded integers. -/
def specScaleEntry (b quality : Int) : Int :=
  max 1 (min 255 ((b * specScaleFactor quality + 50) / 100))

end jpeg

namespace color

/-- The constant `maxProfileSize = 4 * 1024 * 1024`. -/
def maxProfileSize : Nat := 4 * 1024 * 1024

/-- The constant `acspMagic = 0x61637370`, the bytes 'a' 'c' 's' 'p'. -/
def acspMagic : Nat := 0x61637370

/-- The struct `ProfileInfo`. A Go string made of raw profile bytes
(`string(data[16:20])`) is kept as its bytes. -/
structure ProfileInfo where
  Size : Nat
  Version : String
  ColorSpace : List Byte
  PCS : List Byte
  Class : List Byte
  deriving DecidableEq, Repr

/-- The errors of `ParseProfileInfo`, one constructor per error site. -/
inductive ProfileError where
  /-- The message "ICC profile too short (< 128 bytes)". -/
  | tooShort
  /-- The message "ICC profile too large (%d bytes, max %d)". -/
  | tooLarge (len max : Nat)
  /-- The message "invalid ICC signature: 0x%08x (expected 0x%08x)". -/
  | invalidSignature (sig expected : Nat)
  deriving DecidableEq, Repr

/-- The library function `binary.BigEndian.Uint32`:
`uint32(b[3]) | uint32(b[2])<<8 | uint32(b[1])<<16 | uint32(b[0])<<24`. -/
def bigEndianUint32 (b : List Byte) : Nat :=
  (b.getD 3 0).val ||| (b.getD 2 0).val <<< 8 ||| (b.getD 1 0).val <<< 16 |||
    (b.getD 0 0).val <<< 24

/-- The Go slice expression `data[lo:hi]`. -/
def slice (data : List Byte) (lo hi : Nat) : List Byte := (data.take hi).drop lo

/-- The conversion `uint32(n)` of a non-negative `int`: the low 32 bits. -/
def toUint32 (n : Nat) : Nat := n % 2 ^ 32

/-- `ParseProfileInfo` of `profiles.go`. -/
def ParseProfileInfo (data : List Byte) : Except ProfileError ProfileInfo :=
  if data.length < 128 then
    .error .tooShort
  else if toUint32 data.length > maxProfileSize then
    .error (.tooLarge data.length maxProfileSize)
  else
    let sig := bigEndianUint32 (slice data 36 40)
    if sig ≠ acspMagic then
      .error (.invalidSignature sig acspMagic)
    else
      let size := bigEndianUint32 (slice data 0 4)
      let major := (data.getD 8 0).val
      let minor := (data.getD 9 0).val >>> 4
      let bugfix := (data.getD 9 0).val &&& 0x0f
      .ok { Size := size
            Version := toString major ++ "." ++ toString minor ++ "." ++ toString bugfix
            ColorSpace := slice data 16 20
            PCS := slice data 20 24
            Class := slice data 12 16 }

/-- A 128-byte ICC header that is all zero except for the signature 'acsp' at offset 36. -/
def acspHeader : List Byte :=
  List.replicate 36 0 ++ [0x61, 0x63, 0x73, 0x70] ++ List.replicate 88 0

/-- A 128-byte ICC header with version bytes `02 40`, the signature 'acsp' and zeros. -/
def version24Header : List Byte :=
  List.replicate 8 0 ++ [2, 0x40] ++ List.replicate 26 0 ++ [0x61, 0x63, 0x73, 0x70] ++
    List.replicate 88 0

/-- A buffer of `2^32 + 128` bytes: the header `acspHeader` followed by `2^32` zero bytes. -/
def oversizedProfile : List Byte := acspHeader ++ List.replicate (2 ^ 32) 0

end color

namespace jpeg

/-- The struct `DecodedRGB` of `decoder.go`; `ICC` is `none` for the nil slice
("nil if absent"). -/
structure DecodedRGB where
  Width : Int
  Height : Int
  Pixels : List Byte
  ICC : Option (List Byte)
  deriving DecidableEq, Repr

/-- The struct `EncoderOptions` of `encoder.go`. -/
structure EncoderOptions where
  Quality : Int
  CMYReduction : Int
  deriving DecidableEq, Repr

end jpeg

namespace pipeline

/-- The struct `Options` of `pipeline.go`; `SrcProfileOverride` is `none` for the nil
slice, which is how `Run` tests whether it is set. -/
structure Options where
  SrcProfileOverride : Option (List Byte)
  DstProfile : List Byte
  Quality : Int
  CMYReduction : Int
  Intent : Int
  deriving DecidableEq, Repr

/-- The struct `Result` of `pipeline.go`. -/
structure Result where
  Data : List Byte
  SrcWidth : Int
  SrcHeight : Int
  deriving DecidableEq, Repr

/-- What `Run` calls and does not define: the bundled asset `color.EmbeddedSRGB` (the
file `srgb_v4.icc`) and the functions `jpeg.DecodeRGB`, `color.NewTransform`,
`(*Transform).TransformPixels` and `jpeg.EncodeCMYK`, which run libjpeg and lcms2. `T` is
the type of a transform handle; an `error` of a collaborator is its message. -/
structure Collaborators (T : Type) where
  EmbeddedSRGB : List Byte
  DecodeRGB : List Byte → Except String jpeg.DecodedRGB
  NewTransform : List Byte → List Byte → Int → Except String T
  TransformPixels : T → List Byte → Int → Int → Except String (List Byte)
  EncodeCMYK : List Byte → Int → Int → List Byte → jpeg.EncoderOptions →
    Except String (List Byte)

/-- The calls that `Run` makes to its collaborators, with their arguments; `Close` is
the deferred `xform.Close()`. -/
inductive Call (T : Type) where
  | DecodeRGB (jpegData : List Byte)
  | NewTransform (srcICC dstICC : List Byte) (intent : Int)
  | TransformPixels (xform : T) (src : List Byte) (width height : Int)
  | EncodeCMYK (pixels : List Byte) (width height : Int) (iccProfile : List Byte)
      (opts : jpeg.EncoderOptions)
  | Close (xform : T)
  deriving DecidableEq, Repr

/-- The errors returned by `Run`: the collaborator's error wrapped with the stage prefix
"decode: ", "color transform setup: ", "color transform: " or "encode: ". -/
inductive RunError where
  | decode (err : String)
  | colorTransformSetup (err : String)
  | colorTransform (err : String)
  | encode (err : String)
  deriving DecidableEq, Repr

/-- The string constant "GRAY" that `Run` compares `pi.ColorSpace` with, as bytes. -/
def GRAY : List Byte := [71, 82, 65, 89]

/-- Step 2 of `Run` (lines 37-48): the value of the variable `srcICC` when
`color.NewTransform` is called. `none` is the nil slice. -/
def srcICC (EmbeddedSRGB : List Byte) (opts : Options) (decoded : jpeg.DecodedRGB) :
    List Byte :=
  let srcICC := opts.SrcProfileOverride
  let srcICC := if srcICC = none then decoded.ICC else srcICC
  let srcICC :=
    match srcICC with
    | some profile =>
      match color.ParseProfileInfo profile with
      | .ok pi => if pi.ColorSpace = GRAY then none else some profile
      | .error _ => some profile
    | none => none
  match srcICC with
  | none => EmbeddedSRGB
  | some profile => profile

/-- `Run` of `pipeline.go`: its return value, and the calls made to the collaborators in
order. -/
def Run {T : Type} (c : Collaborators T) (jpegData : List Byte) (opts : Options) :
    Except RunError Result × List (Call T) :=
  match c.DecodeRGB jpegData with
  | .error err => (.error (.decode err), [.DecodeRGB jpegData])
  | .ok decoded =>
    let src := srcICC c.EmbeddedSRGB opts decoded
    match c.NewTransform src opts.DstProfile opts.Intent with
    | .error err =>
      (.error (.colorTransformSetup err),
        [.DecodeRGB jpegData, .NewTransform src opts.DstProfile opts.Intent])
    | .ok xform =>
      match c.TransformPixels xform decoded.Pixels decoded.Width decoded.Height with
      | .error err =>
        (.error (.colorTransform err),
          [.DecodeRGB jpegData, .NewTransform src opts.DstProfile opts.Intent,
            .TransformPixels xform decoded.Pixels decoded.Width decoded.Height,
            .Close xform])
      | .ok cmykPixels =>
        let encOpts : jpeg.EncoderOptions :=
          { Quality := opts.Quality, CMYReduction := opts.CMYReduction }
        match c.EncodeCMYK cmykPixels decoded.Width decoded.Height opts.DstProfile encOpts with
        | .error err =>
          (.error (.encode err),
            [.DecodeRGB jpegData, .NewTransform src opts.DstProfile opts.Intent,
              .TransformPixels xform decoded.Pixels decoded.Width decoded.Height,
              .EncodeCMYK cmykPixels decoded.Width decoded.Height opts.DstProfile encOpts,
              .Close xform])
        | .ok encoded =>
          (.ok { Data := encoded, SrcWidth := decoded.Width, SrcHeight := decoded.Height },
            [.DecodeRGB jpegData, .NewTransform src opts.DstProfile opts.Intent,
              .TransformPixels xform decoded.Pixels decoded.Width decoded.Height,
              .EncodeCMYK cmykPixels decoded.Width decoded.Height opts.DstProfile encOpts,
              .Close xform])

/-- A 128-byte ICC header with data colour space 'GRAY' and the signature 'acsp'. -/
def grayHeader : List Byte :=
  List.replicate 16 0 ++ [71, 82, 65, 89] ++ List.replicate 16 0 ++
    [0x61, 0x63, 0x73, 0x70] ++ List.replicate 88 0

/-- A 128-byte ICC header with data colour space 'RGB ' and the signature 'acsp'. -/
def rgbHeader : List Byte :=
  List.replicate 16 0 ++ [82, 71, 66, 32] ++ List.replicate 16 0 ++
    [0x61, 0x63, 0x73, 0x70] ++ List.replicate 88 0

/-- Collaborators that always succeed, for evaluating `Run`: the image is one black
pixel with no embedded profile, the bundled profile is `rgbHeader`, the handle is `()`. -/
def stubCollaborators : Collaborators Unit where
  EmbeddedSRGB := rgbHeader
  DecodeRGB := fun _ => .ok { Width := 1, Height := 1, Pixels := [0, 0, 0], ICC := none }
  NewTransform := fun _ _ _ => .ok ()
  TransformPixels := fun _ _ _ _ => .ok [0, 0, 0, 255]
  EncodeCMYK := fun _ _ _ _ _ => .ok [0xFF, 0xD8, 0xFF, 0xD9]

end pipeline

namespace jpeg

/-- The C constant `MAX_CHUNK_DATA = 65535 - 2 - ICC_HEADER_LEN` of `encoder.go`. -/
def MAX_CHUNK_DATA : Nat := 65535 - 2 - 14

/-- The C function `write_icc_markers` of `encoder.go`: the payloads it passes to
`jpeg_write_marker(cinfo, JPEG_APP0 + 2, ...)`, in order. `malloc` is taken to succeed;
the 12 bytes copied from `ICC_TAG "\0"` are `iccMarkerTag`; a profile length stays far
below the `2^31 * 65519` bytes at which `int num_chunks` would truncate. -/
def write_icc_markers (icc : List Byte) : List (List Byte) :=
  let icc_len := icc.length
  let num_chunks := (icc_len + MAX_CHUNK_DATA - 1) / MAX_CHUNK_DATA
  let num_chunks := if num_chunks > 255 then 255 else num_chunks
  (List.range num_chunks).map fun i =>
    let offset := i * MAX_CHUNK_DATA
    let chunk_data_len := icc_len - offset
    let chunk_data_len := if chunk_data_len > MAX_CHUNK_DATA then MAX_CHUNK_DATA else chunk_data_len
    iccMarkerTag ++ [toByte (i + 1), toByte num_chunks] ++ (icc.drop offset).take chunk_data_len

/-- The arguments with which `EncodeCMYK` calls the C function `encode_cmyk_jpeg`; `icc`
is `none` for the NULL pointer. -/
structure EncodeCall where
  pixels : List Byte
  width : Int
  height : Int
  cmy_qtable : Fin 64 → Nat
  k_qtable : Fin 64 → Nat
  icc : Option (List Byte)

/-- The APP2 payloads that `encode_cmyk_jpeg` writes for its argument `icc` (lines
117-120): `if (icc != NULL && icc_len > 0) write_icc_markers(...)`. -/
def iccMarkersWritten (icc : Option (List Byte)) : List (List Byte) :=
  match icc with
  | some profile => if profile.length > 0 then write_icc_markers profile else []
  | none => []

/-- Lines 160-167 of `EncodeCMYK`: the defaults put in place of a zero `Quality` and a
zero `CMYReduction`, then the tables `cmyTable, kTable`. -/
def encoderTables (opts : EncoderOptions) : (Fin 64 → Nat) × (Fin 64 → Nat) :=
  let opts := if opts.Quality = 0 then { opts with Quality := 85 } else opts
  let opts := if opts.CMYReduction = 0 then { opts with CMYReduction := 15 } else opts
  GenerateQuantTables opts.Quality opts.CMYReduction

/-- `EncodeCMYK` of `encoder.go`, over the C function `encode_cmyk_jpeg` (libjpeg), which
returns the encoded bytes or the libjpeg message. The result `none` is the run-time
panic of `&pixels[0]` on an empty `pixels`; the conversion `C.uint(cmyTable[i])` keeps
the value. -/
def EncodeCMYK (encode_cmyk_jpeg : EncodeCall → Except String (List Byte))
    (pixels : List Byte) (width height : Int) (iccProfile : List Byte)
    (opts : EncoderOptions) : Option (Except String (List Byte)) :=
  let expectedSize := wrapInt64 (wrapInt64 (width * height) * 4)
  if (pixels.length : Int) ≠ expectedSize then
    some (.error "expected CMYK bytes")
  else
    let tables := encoderTables opts
    let icc := if iccProfile.length > 0 then some iccProfile else none
    if pixels.length = 0 then
      none
    else
      match encode_cmyk_jpeg
        { pixels := pixels, width := width, height := height, cmy_qtable := tables.1,
          k_qtable := tables.2, icc := icc } with
      | .error msg => some (.error ("libjpeg encode: " ++ msg))
      | .ok output => some (.ok output)

/-- A stand-in for `encode_cmyk_jpeg` that always succeeds and returns, instead of a
JPEG, the first entry of each of the two tables it was given. -/
def recordTables (call : EncodeCall) : Except String (List Byte) :=
  .ok [toByte (call.cmy_qtable 0), toByte (call.k_qtable 0)]

/-- Two ICC markers that both carry the sequence number 1 of 2: chunk 2 is missing. -/
def duplicatedMarkers : List (List Byte) :=
  [iccMarkerTag ++ [1, 2, 65], iccMarkerTag ++ [1, 2, 66]]

/-- A profile of `255 * 65519 + 1` zero bytes: it needs 256 chunks. -/
def profile256 : List Byte := List.replicate (255 * 65519 + 1) 0

end jpeg

namespace color

/-- The lcms2 functions that `transform.go` calls to acquire handles. A handle
(`cmsHPROFILE`, `cmsHTRANSFORM`) is a pointer, here its address, and 0 is NULL. -/
structure Lcms2 where
  cmsOpenProfileFromMem : List Byte → Nat
  cmsCreateTransform : Nat → Nat → Int → Nat

/-- The lcms2 calls of `NewTransform` and `Close` that acquire or release a handle, with
the handle returned or released. -/
inductive LcmsCall where
  | cmsOpenProfileFromMem (mem : List Byte) (h : Nat)
  | cmsCloseProfile (h : Nat)
  | cmsCreateTransform (hSrc hDst : Nat) (intent : Int) (h : Nat)
  | cmsDeleteTransform (h : Nat)
  deriving DecidableEq, Repr

/-- The struct `Transform` of `transform.go`. -/
structure Transform where
  hSrc : Nat
  hDst : Nat
  hTransform : Nat
  deriving DecidableEq, Repr

/-- `NewTransform` of `transform.go`: what it returns and the lcms2 calls it makes, in
order. The result `none` is the run-time panic of `&srcICC[0]` or `&dstICC[0]` on an
empty slice. The finalizer set on the result calls `Close`, which does nothing once
`Close` has run. -/
def NewTransform (lib : Lcms2) (srcICC dstICC : List Byte) (intent : Int) :
    Option (Except String Transform × List LcmsCall) :=
  if srcICC.length = 0 then
    none
  else
    let hSrc := lib.cmsOpenProfileFromMem srcICC
    if hSrc = 0 then
      some (.error "lcms2: failed to open source profile",
        [.cmsOpenProfileFromMem srcICC hSrc])
    else if dstICC.length = 0 then
      none
    else
      let hDst := lib.cmsOpenProfileFromMem dstICC
      if hDst = 0 then
        some (.error "lcms2: failed to open destination profile",
          [.cmsOpenProfileFromMem srcICC hSrc, .cmsOpenProfileFromMem dstICC hDst,
            .cmsCloseProfile hSrc])
      else
        let hTransform := lib.cmsCreateTransform hSrc hDst intent
        if hTransform = 0 then
          some (.error "lcms2: failed to create transform",
            [.cmsOpenProfileFromMem srcICC hSrc, .cmsOpenProfileFromMem dstICC hDst,
              .cmsCreateTransform hSrc hDst intent hTransform,
              .cmsCloseProfile hDst, .cmsCloseProfile hSrc])
        else
          some (.ok { hSrc := hSrc, hDst := hDst, hTransform := hTransform },
            [.cmsOpenProfileFromMem srcICC hSrc, .cmsOpenProfileFromMem dstICC hDst,
              .cmsCreateTransform hSrc hDst intent hTransform])

/-- The method `(*Transform).Close` of `transform.go`: the transform after the call and
the lcms2 calls made. -/
def Close (t : Transform) : Transform × List LcmsCall :=
  let step1 : Transform × List LcmsCall :=
    if t.hTransform ≠ 0 then
      ({ t with hTransform := 0 }, [.cmsDeleteTransform t.hTransform])
    else (t, [])
  let step2 : Transform × List LcmsCall :=
    if step1.1.hDst ≠ 0 then
      ({ step1.1 with hDst := 0 }, step1.2 ++ [.cmsCloseProfile step1.1.hDst])
    else step1
  if step2.1.hSrc ≠ 0 then
    ({ step2.1 with hSrc := 0 }, step2.2 ++ [.cmsCloseProfile step2.1.hSrc])
  else step2

/-- The handles still open: one update of the pair (profile handles, transform handles)
by an lcms2 call. A call that returned NULL acquired nothing. -/
def trackHandle (held : List Nat × List Nat) : LcmsCall → List Nat × List Nat
  | .cmsOpenProfileFromMem _ h => if h = 0 then held else (h :: held.1, held.2)
  | .cmsCloseProfile h => (held.1.erase h, held.2)
  | .cmsCreateTransform _ _ _ h => if h = 0 then held else (held.1, h :: held.2)
  | .cmsDeleteTransform h => (held.1, held.2.erase h)

/-- The profile handles and transform handles left open by a sequence of lcms2 calls. -/
def openHandles (calls : List LcmsCall) : List Nat × List Nat :=
  calls.foldl trackHandle ([], [])

/-- A stand-in for lcms2 in which every call succeeds: a profile handle is the length of
the profile plus one, a transform handle is 7. -/
def stubLcms2 : Lcms2 where
  cmsOpenProfileFromMem := fun mem => mem.length + 1
  cmsCreateTransform := fun _ _ _ => 7

end color

namespace pipeline

/-- The lcms2 calls behind the calls that `Run` makes on a transform: those of its
deferred `Close`. -/
def closeCalls : List (Call color.Transform) → List color.LcmsCall
  | [] => []
  | .Close xform :: rest => (color.Close xform).2 ++ closeCalls rest
  | _ :: rest => closeCalls rest

/-- Collaborators that always succeed, with the embedded profile of the decoded image as
a parameter. -/
def stubWithICC (icc : Option (List Byte)) : Collaborators Unit where
  EmbeddedSRGB := rgbHeader
  DecodeRGB := fun _ => .ok { Width := 1, Height := 1, Pixels := [0, 0, 0], ICC := icc }
  NewTransform := fun _ _ _ => .ok ()
  TransformPixels := fun _ _ _ _ => .ok [0, 0, 0, 255]
  EncodeCMYK := fun _ _ _ _ _ => .ok [0xFF, 0xD8, 0xFF, 0xD9]

/-- Collaborators whose transform is the one `color.NewTransform` builds on `stubLcms2`
for non-empty profiles, and whose encoder fails. -/
def stubFailingEncoder : Collaborators color.Transform where
  EmbeddedSRGB := rgbHeader
  DecodeRGB := fun _ => .ok { Width := 1, Height := 1, Pixels := [0, 0, 0], ICC := none }
  NewTransform := fun src dst _ =>
    .ok { hSrc := src.length + 1, hDst := dst.length + 1, hTransform := 7 }
  TransformPixels := fun _ _ _ _ => .ok [0, 0, 0, 255]
  EncodeCMYK := fun _ _ _ _ _ => .error "libjpeg encode: failed"

end pipeline

/-! The ICC marker codec -/

namespace jpeg

theorem extractLoop_skip (m : List Byte) (rest : List (List Byte)) (chunks : List chunk)
    (e : Nat) (h : recognized m = false) :
    extractLoop (m :: rest) chunks e = extractLoop rest chunks e := by
  simp only [recognized, decide_eq_false_iff_not, not_and, not_lt] at h
  by_cases h14 : m.length < 14
  · simp [extractLoop, h14]
  · have h12 : m.take 12 ≠ iccMarkerTag := h (by omega)
    simp [extractLoop, h14, h12]

theorem extractLoop_recognized (m : List Byte) (rest : List (List Byte)) (chunks : List chunk)
    (e : Nat) (h : recognized m = true) :
    extractLoop (m :: rest) chunks e =
      if seqOf m = 0 ∨ seqOf m > countOf m then .error (.invalidSequence (seqOf m) (countOf m))
      else if e = 0 then extractLoop rest (chunks ++ [toChunk m]) (countOf m)
      else if countOf m ≠ e then .error (.inconsistentCount (countOf m) e)
      else extractLoop rest (chunks ++ [toChunk m]) e := by
  simp only [recognized, decide_eq_true_eq] at h
  obtain ⟨h14, h12⟩ := h
  simp only [extractLoop, h14, h12, seqOf, countOf, toChunk]
  simp

/-- The loop never looks at a marker that is not recognized. -/
theorem extractLoop_filter (ms : List (List Byte)) :
    ∀ (chunks : List chunk) (e : Nat),
      extractLoop (ms.filter recognized) chunks e = extractLoop ms chunks e := by
  induction ms with
  | nil => intro chunks e; rfl
  | cons m rest ih =>
    intro chunks e
    cases h : recognized m with
    | false => rw [List.filter_cons_of_neg (by simp [h]), extractLoop_skip m rest chunks e h, ih]
    | true =>
      rw [List.filter_cons_of_pos h, extractLoop_recognized m _ chunks e h,
        extractLoop_recognized m rest chunks e h]
      simp only [ih]

/-- When every recognized marker has a valid sequence byte and the count byte `n`, the
loop ends normally, having appended the chunk of each recognized marker in order. -/
theorem extractLoop_uniform (n : Nat) (ms : List (List Byte)) :
    ∀ (chunks : List chunk) (e : Nat),
      (∀ m ∈ ms, recognized m = true → 1 ≤ seqOf m ∧ seqOf m ≤ countOf m ∧ countOf m = n) →
      (e = 0 ∨ e = n) →
      extractLoop ms chunks e =
        .ok (chunks ++ (ms.filter recognized).map toChunk,
          if ms.filter recognized = [] then e else n) := by
  induction ms with
  | nil => intro chunks e _ _; simp [extractLoop]
  | cons m rest ih =>
    intro chunks e hall he
    have hrest : ∀ m ∈ rest, recognized m = true →
        1 ≤ seqOf m ∧ seqOf m ≤ countOf m ∧ countOf m = n :=
      fun x hx => hall x (List.mem_cons_of_mem _ hx)
    cases h : recognized m with
    | false =>
      rw [extractLoop_skip m rest chunks e h, ih chunks e hrest he,
        List.filter_cons_of_neg (by simp [h])]
    | true =>
      obtain ⟨h1, h2, h3⟩ := hall m (List.mem_cons_self _ _) h
      have hn : n ≠ 0 := by omega
      rw [extractLoop_recognized m rest chunks e h, List.filter_cons_of_pos h]
      have hbad : ¬ (seqOf m = 0 ∨ seqOf m > countOf m) := by omega
      rw [if_neg hbad]
      rcases he with he | he
      · rw [if_pos he, ih _ _ hrest (Or.inr h3)]
        simp [h3]
      · have he0 : e ≠ 0 := by omega
        have hce : ¬ (countOf m ≠ e) := by omega
        rw [if_neg he0, if_neg hce, ih _ _ hrest (Or.inr he)]
        simp [he]


/-- A recognized marker with an invalid sequence byte makes the loop return an error,
whatever the loop has read before it. -/
theorem extractLoop_badSeq (ms : List (List Byte)) :
    ∀ (chunks : List chunk) (e : Nat),
      (∃ m ∈ ms, recognized m = true ∧ (seqOf m = 0 ∨ seqOf m > countOf m)) →
      ∃ err, extractLoop ms chunks e = .error err := by
  induction ms with
  | nil => intro _ _ h; obtain ⟨m, hm, _⟩ := h; cases hm
  | cons m rest ih =>
    intro chunks e hbad
    cases h : recognized m with
    | false =>
      rw [extractLoop_skip m rest chunks e h]
      obtain ⟨x, hx, hrx, hsx⟩ := hbad
      rcases List.mem_cons.mp hx with rfl | hx
      · rw [h] at hrx; cases hrx
      · exact ih chunks e ⟨x, hx, hrx, hsx⟩
    | true =>
      rw [extractLoop_recognized m rest chunks e h]
      by_cases hm : seqOf m = 0 ∨ seqOf m > countOf m
      · exact ⟨_, if_pos hm⟩
      · have hrest : ∃ x ∈ rest, recognized x = true ∧ (seqOf x = 0 ∨ seqOf x > countOf x) := by
          obtain ⟨x, hx, hrx, hsx⟩ := hbad
          rcases List.mem_cons.mp hx with rfl | hx
          · exact absurd hsx hm
          · exact ⟨x, hx, hrx, hsx⟩
        rw [if_neg hm]
        by_cases he : e = 0
        · rw [if_pos he]; exact ih _ _ hrest
        · rw [if_neg he]
          by_cases hc : countOf m ≠ e
          · exact ⟨_, if_pos hc⟩
          · rw [if_neg hc]; exact ih _ _ hrest

/-- Once `expectedCount` is set, a later recognized marker with another count byte makes
the loop return the inconsistent-count error, when all sequence bytes are valid. -/
theorem extractLoop_otherCount (ms : List (List Byte)) :
    ∀ (chunks : List chunk) (e : Nat), e ≠ 0 →
      (∀ m ∈ ms, recognized m = true → 1 ≤ seqOf m ∧ seqOf m ≤ countOf m) →
      (∃ m ∈ ms, recognized m = true ∧ countOf m ≠ e) →
      ∃ c, extractLoop ms chunks e = .error (.inconsistentCount c e) := by
  induction ms with
  | nil => intro _ _ _ _ h; obtain ⟨m, hm, _⟩ := h; cases hm
  | cons m rest ih =>
    intro chunks e he hall hex
    have hrest : ∀ x ∈ rest, recognized x = true → 1 ≤ seqOf x ∧ seqOf x ≤ countOf x :=
      fun x hx => hall x (List.mem_cons_of_mem _ hx)
    cases h : recognized m with
    | false =>
      rw [extractLoop_skip m rest chunks e h]
      obtain ⟨x, hx, hrx, hcx⟩ := hex
      rcases List.mem_cons.mp hx with rfl | hx
      · rw [h] at hrx; cases hrx
      · exact ih chunks e he hrest ⟨x, hx, hrx, hcx⟩
    | true =>
      obtain ⟨h1, h2⟩ := hall m (List.mem_cons_self _ _) h
      have hbad : ¬ (seqOf m = 0 ∨ seqOf m > countOf m) := by omega
      rw [extractLoop_recognized m rest chunks e h, if_neg hbad, if_neg he]
      by_cases hc : countOf m ≠ e
      · exact ⟨_, if_pos hc⟩
      · rw [if_neg hc]
        obtain ⟨x, hx, hrx, hcx⟩ := hex
        rcases List.mem_cons.mp hx with rfl | hx
        · exact absurd hcx hc
        · exact ih _ e he hrest ⟨x, hx, hrx, hcx⟩

/-- Two recognized markers with different count bytes make the loop, started with
`expectedCount = 0`, return the inconsistent-count error, when all sequence bytes are
valid. -/
theorem extractLoop_twoCounts (ms : List (List Byte)) :
    ∀ (chunks : List chunk),
      (∀ m ∈ ms, recognized m = true → 1 ≤ seqOf m ∧ seqOf m ≤ countOf m) →
      (∃ a ∈ ms, ∃ b ∈ ms, recognized a = true ∧ recognized b = true ∧ countOf a ≠ countOf b) →
      ∃ c e, extractLoop ms chunks 0 = .error (.inconsistentCount c e) := by
  induction ms with
  | nil => intro _ _ h; obtain ⟨a, ha, _⟩ := h; cases ha
  | cons m rest ih =>
    intro chunks hall hex
    have hrest : ∀ x ∈ rest, recognized x = true → 1 ≤ seqOf x ∧ seqOf x ≤ countOf x :=
      fun x hx => hall x (List.mem_cons_of_mem _ hx)
    obtain ⟨a, ha, b, hb, hra, hrb, hab⟩ := hex
    cases h : recognized m with
    | false =>
      rw [extractLoop_skip m rest chunks 0 h]
      have ha2 : a ∈ rest := by
        rcases List.mem_cons.mp ha with rfl | ha
        · rw [h] at hra; cases hra
        · exact ha
      have hb2 : b ∈ rest := by
        rcases List.mem_cons.mp hb with rfl | hb
        · rw [h] at hrb; cases hrb
        · exact hb
      exact ih chunks hrest ⟨a, ha2, b, hb2, hra, hrb, hab⟩
    | true =>
      obtain ⟨h1, h2⟩ := hall m (List.mem_cons_self _ _) h
      have hbad : ¬ (seqOf m = 0 ∨ seqOf m > countOf m) := by omega
      rw [extractLoop_recognized m rest chunks 0 h, if_neg hbad, if_pos rfl]
      have hne : countOf m ≠ 0 := by omega
      have hother : ∃ x ∈ rest, recognized x = true ∧ countOf x ≠ countOf m := by
        by_cases hca : countOf a = countOf m
        · have hcb : countOf b ≠ countOf m := fun hcb => hab (hca.trans hcb.symm)
          rcases List.mem_cons.mp hb with rfl | hb
          · exact absurd rfl hcb
          · exact ⟨b, hb, hrb, hcb⟩
        · rcases List.mem_cons.mp ha with rfl | ha
          · exact absurd rfl hca
          · exact ⟨a, ha, hra, hca⟩
      obtain ⟨c, hc⟩ := extractLoop_otherCount rest _ (countOf m) hne hrest hother
      exact ⟨c, countOf m, hc⟩

/-- **C5.** Absence is not an error: `ExtractICC` returns `nil, nil` for the empty marker
list, and for every marker list each of whose markers is shorter than 14 bytes or does
not start with the 12 bytes of the tag. -/
theorem C5_absent_is_not_an_error :
    ExtractICC [] = .ok none ∧
    ∀ ms : List (List Byte),
      (∀ m ∈ ms, m.length < 14 ∨ m.take 12 ≠ iccMarkerTag) → ExtractICC ms = .ok none := by
  refine ⟨rfl, ?_⟩
  intro ms hms
  have hnone : ms.filter recognized = [] := by
    rw [List.filter_eq_nil_iff]
    intro m hm hr
    simp only [recognized, decide_eq_true_eq] at hr
    rcases hms m hm with h | h
    · exact hr.1 h
    · exact h hr.2
  have hloop := extractLoop_uniform 0 ms [] 0
    (fun m hm hr => by
      have : m ∈ ms.filter recognized := List.mem_filter.mpr ⟨hm, hr⟩
      rw [hnone] at this; cases this)
    (Or.inl rfl)
  rw [hnone] at hloop
  simp [ExtractICC, hloop]

/-- A list with two foreign APP2 payloads (one too short, one with another tag) is
reported as carrying no profile. -/
theorem C5_absent_is_not_an_error_witness :
    ExtractICC [[1, 2, 3], [69, 120, 105, 102, 0, 0, 1, 2, 3, 4, 5, 6, 7, 8, 9, 10]] = .ok none :=
  C5_absent_is_not_an_error.2 _ (by decide)

/-- **C6.** Foreign APP2 markers are ignored: `ExtractICC` gives the same outcome (the same
bytes, the same `nil, nil`, or the same error) on a marker list and on the list left after
deleting every marker that is shorter than 14 bytes or whose first 12 bytes are not the
tag, wherever such markers stand in the list. -/
theorem C6_foreign_markers_ignored (ms : List (List Byte)) :
    ExtractICC ms =
      ExtractICC (ms.filter fun m => !(decide (m.length < 14) || decide (m.take 12 ≠ iccMarkerTag))) := by
  have hfun : (fun m : List Byte =>
      !(decide (m.length < 14) || decide (m.take 12 ≠ iccMarkerTag))) = recognized := by
    funext m
    by_cases h1 : m.length < 14 <;> by_cases h2 : m.take 12 = iccMarkerTag <;>
      simp [recognized, h1, h2]
  rw [hfun]
  simp only [ExtractICC, extractLoop_filter]

/-- **C7.** A marker list that contains a recognized marker whose sequence byte is 0 or
greater than its count byte makes `ExtractICC` return an error: neither bytes nor
`nil, nil`. -/
theorem C7_invalid_sequence_is_error (ms : List (List Byte))
    (h : ∃ m ∈ ms, recognized m = true ∧ (seqOf m = 0 ∨ seqOf m > countOf m)) :
    ∃ err, ExtractICC ms = .error err := by
  obtain ⟨err, herr⟩ := extractLoop_badSeq ms [] 0 h
  exact ⟨err, by simp [ExtractICC, herr]⟩

/-- A valid chunk 1/1 followed by a chunk numbered 3 of 2 is rejected. -/
theorem C7_invalid_sequence_is_error_witness :
    ∃ err, ExtractICC [iccMarkerTag ++ [1, 1, 7], iccMarkerTag ++ [3, 2, 8]] = .error err :=
  C7_invalid_sequence_is_error _ ⟨iccMarkerTag ++ [3, 2, 8], by decide, by decide, by decide⟩

/-- **C8.** When every recognized marker has `1 ≤ seq ≤ count` and two recognized markers
carry different count bytes, `ExtractICC` fails with the inconsistent-count error. -/
theorem C8_inconsistent_count (ms : List (List Byte))
    (hvalid : ∀ m ∈ ms, recognized m = true → 1 ≤ seqOf m ∧ seqOf m ≤ countOf m)
    (hdiff : ∃ a ∈ ms, ∃ b ∈ ms,
      recognized a = true ∧ recognized b = true ∧ countOf a ≠ countOf b) :
    ∃ c e, ExtractICC ms = .error (.inconsistentCount c e) := by
  obtain ⟨c, e, hce⟩ := extractLoop_twoCounts ms [] hvalid hdiff
  exact ⟨c, e, by simp [ExtractICC, hce]⟩

/-- The chunks 1/2 and 2/3 disagree on the count. -/
theorem C8_inconsistent_count_witness :
    ∃ c e, ExtractICC [iccMarkerTag ++ [1, 2, 7], iccMarkerTag ++ [2, 3, 8]] =
      .error (.inconsistentCount c e) :=
  C8_inconsistent_count _ (by decide)
    ⟨iccMarkerTag ++ [1, 2, 7], by decide, iccMarkerTag ++ [2, 3, 8], by decide,
      by decide, by decide, by decide⟩

/-- **C9.** When the recognized markers, of which there is at least one, all have
`1 ≤ seq ≤ count` and the same count byte `n`, and their number is not `n` (fewer or
more), `ExtractICC` fails with the missing-chunks error, reporting `n` expected and the
number found. -/
theorem C9_missing_chunks (ms : List (List Byte)) (n : Nat)
    (hsome : ms.filter recognized ≠ [])
    (hall : ∀ m ∈ ms, recognized m = true → 1 ≤ seqOf m ∧ seqOf m ≤ countOf m ∧ countOf m = n)
    (hnum : (ms.filter recognized).length ≠ n) :
    ExtractICC ms = .error (.missingChunks n (ms.filter recognized).length) := by
  have hloop := extractLoop_uniform n ms [] 0 hall (Or.inl rfl)
  rw [if_neg hsome] at hloop
  have hlen : (ms.filter recognized).length ≠ 0 := fun h => hsome (List.length_eq_zero.mp h)
  simp [ExtractICC, hloop, hlen, hnum]

/-- One chunk out of a declared three (fewer), with a foreign marker beside it. -/
theorem C9_missing_chunks_witness :
    ExtractICC [[1, 2, 3], iccMarkerTag ++ [2, 3, 8]] = .error (.missingChunks 3 1) :=
  C9_missing_chunks [[1, 2, 3], iccMarkerTag ++ [2, 3, 8]] 3 (by decide) (by decide) (by decide)

/-! Sorting chunks with distinct sequence numbers -/

theorem sortSlice_eq_insertionSort (l : List chunk) : sortSlice l = l.insertionSort seqLe := by
  unfold sortSlice seqLe
  congr

theorem sorted_strict_of_nodup {l : List chunk} (hs : l.Sorted seqLe)
    (hnd : (l.map chunk.seq).Nodup) : l.Sorted seqLeStrict := by
  have hne : l.Pairwise (fun a b => a.seq ≠ b.seq) := List.pairwise_map.mp hnd
  exact (List.Pairwise.and hs hne).imp fun h => ⟨h.1, fun heq => absurd heq h.2⟩

/-- Sorting a permutation of a list that is sorted by `seq`, with no `seq` repeated,
gives that list back. -/
theorem sortSlice_of_perm {l sorted : List chunk} (hp : l.Perm sorted)
    (hs : sorted.Sorted seqLe) (hnd : (sorted.map chunk.seq).Nodup) :
    sortSlice l = sorted := by
  rw [sortSlice_eq_insertionSort]
  have hp2 : (l.insertionSort seqLe).Perm sorted := (List.perm_insertionSort seqLe l).trans hp
  have hnd2 : ((l.insertionSort seqLe).map chunk.seq).Nodup :=
    (hp2.map chunk.seq).nodup_iff.mpr hnd
  exact List.eq_of_perm_of_sorted hp2
    (sorted_strict_of_nodup (List.sorted_insertionSort seqLe l) hnd2)
    (sorted_strict_of_nodup hs hnd)

/-! The payloads written by `ChunkICC` -/

theorem chunkAt_eq (profile : List Byte) (n i : Nat) :
    chunkAt profile n i = iccMarkerTag ++ [toByte (i + 1), toByte n] ++ pieceAt profile i := by
  unfold chunkAt pieceAt
  simp only
  congr 2
  split
  · rename_i h
    rw [List.take_of_length_le (Nat.le_refl _), List.take_of_length_le]
    rw [Nat.succ_mul]; omega
  · rw [Nat.succ_mul]

theorem ChunkICC_ok (profile : List Byte) (h0 : profile.length ≠ 0)
    (hn : numChunksOf profile ≤ 255) :
    ChunkICC profile =
      .ok ((List.range (numChunksOf profile)).map (chunkAt profile (numChunksOf profile))) := by
  unfold ChunkICC
  simp only [h0, if_false]
  have : ¬ (profile.length + maxChunkDataSize - 1) / maxChunkDataSize > 255 := by
    unfold numChunksOf at hn; omega
  simp only [this, if_false]
  rfl

theorem flatten_pieces (profile : List Byte) (k : Nat) :
    ((List.range k).map (pieceAt profile)).flatten = profile.take (k * maxChunkDataSize) := by
  induction k with
  | zero => simp
  | succ k ih =>
    rw [List.range_succ, List.map_append, List.flatten_append, ih]
    simp only [List.map_cons, List.map_nil, List.flatten_cons, List.flatten_nil,
      List.append_nil, pieceAt]
    have h : profile.take (k * maxChunkDataSize) =
        (profile.take ((k + 1) * maxChunkDataSize)).take (k * maxChunkDataSize) := by
      rw [List.take_take, Nat.min_eq_left (Nat.mul_le_mul_right _ (Nat.le_succ k))]
    rw [h, List.take_append_drop]

theorem recognized_chunkAt (profile : List Byte) (n i : Nat) :
    recognized (chunkAt profile n i) = true := by
  rw [chunkAt_eq]
  simp [recognized, iccMarkerTag]

theorem seqOf_chunkAt (profile : List Byte) (n i : Nat) :
    seqOf (chunkAt profile n i) = (i + 1) % 256 := by
  rw [chunkAt_eq]
  simp [seqOf, iccMarkerTag, toByte]

theorem countOf_chunkAt (profile : List Byte) (n i : Nat) :
    countOf (chunkAt profile n i) = n % 256 := by
  rw [chunkAt_eq]
  simp [countOf, iccMarkerTag, toByte]

theorem toChunk_chunkAt (profile : List Byte) (n i : Nat) :
    toChunk (chunkAt profile n i) = ⟨(i + 1) % 256, pieceAt profile i⟩ := by
  have hseq := seqOf_chunkAt profile n i
  unfold toChunk
  rw [hseq, chunkAt_eq]
  simp [iccMarkerTag]

theorem numChunksOf_bounds (profile : List Byte) (h0 : profile.length ≠ 0) :
    1 ≤ numChunksOf profile ∧
    (numChunksOf profile - 1) * maxChunkDataSize < profile.length ∧
    profile.length ≤ numChunksOf profile * maxChunkDataSize := by
  unfold numChunksOf maxChunkDataSize
  omega

/-- The chunks that `ExtractICC` collects from the output of `ChunkICC`, in sequence
order: chunk `i` carries the sequence number `i + 1` and the `i`-th piece. -/
theorem toChunk_chunks (profile : List Byte) (n : Nat) (hn : n ≤ 255) :
    ((List.range n).map (chunkAt profile n)).map toChunk =
      (List.range n).map (fun i => (⟨i + 1, pieceAt profile i⟩ : chunk)) := by
  rw [List.map_map]
  apply List.map_congr_left
  intro i hi
  have hi : i < n := List.mem_range.mp hi
  simp only [Function.comp, toChunk_chunkAt]
  congr 1
  omega

theorem sorted_numbered (profile : List Byte) (n : Nat) :
    ((List.range n).map (fun i => (⟨i + 1, pieceAt profile i⟩ : chunk))).Sorted seqLe := by
  unfold List.Sorted
  rw [List.pairwise_map]
  exact (List.pairwise_lt_range n).imp fun h => by unfold seqLe; simp only; omega

theorem nodup_numbered (profile : List Byte) (n : Nat) :
    (((List.range n).map (fun i => (⟨i + 1, pieceAt profile i⟩ : chunk))).map chunk.seq).Nodup := by
  rw [List.map_map]
  unfold List.Nodup
  rw [List.pairwise_map]
  exact (List.pairwise_lt_range n).imp fun h => by simp only [Function.comp]; omega

theorem bufferBytes_numbered (profile : List Byte) (h0 : profile.length ≠ 0) :
    bufferBytes ((List.range (numChunksOf profile)).map
      (fun i => (⟨i + 1, pieceAt profile i⟩ : chunk))) = some profile := by
  have hb := numChunksOf_bounds profile h0
  unfold bufferBytes
  simp only [List.map_map]
  have hfun : (chunk.data ∘ fun i => (⟨i + 1, pieceAt profile i⟩ : chunk)) = pieceAt profile := rfl
  rw [hfun, flatten_pieces, List.take_of_length_le hb.2.2]
  have hne : profile ≠ [] := fun h => h0 (by rw [h]; rfl)
  simp [hne]

/-- `ExtractICC` on the payloads of `ChunkICC`, read in any order, gives the profile. -/
theorem ExtractICC_perm_chunks (profile : List Byte) (h0 : profile.length ≠ 0)
    (hn : numChunksOf profile ≤ 255) (l : List (List Byte))
    (hp : l.Perm ((List.range (numChunksOf profile)).map
      (chunkAt profile (numChunksOf profile)))) :
    ExtractICC l = .ok (some profile) := by
  have hb := numChunksOf_bounds profile h0
  have hall : ∀ m ∈ l, recognized m = true →
      1 ≤ seqOf m ∧ seqOf m ≤ countOf m ∧ countOf m = numChunksOf profile := by
    intro m hm _
    obtain ⟨i, hi, rfl⟩ := List.mem_map.mp (hp.mem_iff.mp hm)
    have hi : i < numChunksOf profile := List.mem_range.mp hi
    rw [seqOf_chunkAt, countOf_chunkAt]
    omega
  have hrec : l.filter recognized = l := by
    rw [List.filter_eq_self]
    intro m hm
    obtain ⟨i, _, rfl⟩ := List.mem_map.mp (hp.mem_iff.mp hm)
    exact recognized_chunkAt _ _ _
  have hlen : l.length = numChunksOf profile := by
    rw [hp.length_eq, List.length_map, List.length_range]
  have hne : l ≠ [] := fun h => by rw [h] at hlen; simp at hlen; omega
  have hloop := extractLoop_uniform (numChunksOf profile) l [] 0 hall (Or.inl rfl)
  rw [hrec, if_neg hne, List.nil_append] at hloop
  have hsort : sortSlice (l.map toChunk) =
      (List.range (numChunksOf profile)).map
        (fun i => (⟨i + 1, pieceAt profile i⟩ : chunk)) := by
    apply sortSlice_of_perm
    · rw [← toChunk_chunks profile _ hn]
      exact hp.map toChunk
    · exact sorted_numbered profile _
    · exact nodup_numbered profile _
  have hlen0 : ¬ l.length = 0 := by omega
  have hn0 : ¬ numChunksOf profile = 0 := by omega
  simp only [ExtractICC, hloop, List.length_map, hlen, hn0, if_false, ne_eq,
    not_true_eq_false, hsort, bufferBytes_numbered profile h0]

theorem numChunksOf_le_iff (profile : List Byte) :
    numChunksOf profile ≤ 255 ↔ profile.length ≤ 16707345 := by
  unfold numChunksOf maxChunkDataSize
  omega

theorem length_pieceAt (profile : List Byte) (i : Nat) (hi : i < numChunksOf profile) :
    1 ≤ (pieceAt profile i).length ∧ (pieceAt profile i).length ≤ 65519 := by
  have h0 : profile.length ≠ 0 := by
    intro h
    unfold numChunksOf maxChunkDataSize at hi
    omega
  have hb := numChunksOf_bounds profile h0
  unfold pieceAt
  rw [List.length_drop, List.length_take]
  unfold maxChunkDataSize at *
  omega

/-- **C1.** Round trip: for every profile `P` of at least one byte and at most
`255 * 65519 = 16,707,345` bytes (at most 255 chunks), `ChunkICC P` succeeds and
`ExtractICC` on its output returns exactly `P`, with no error. -/
theorem C1_round_trip (P : List Byte) (h1 : 1 ≤ P.length) (h2 : P.length ≤ 255 * 65519) :
    ∃ payloads, ChunkICC P = .ok payloads ∧ ExtractICC payloads = .ok (some P) := by
  have h0 : P.length ≠ 0 := by omega
  have hn : numChunksOf P ≤ 255 := (numChunksOf_le_iff P).mpr (by omega)
  exact ⟨_, ChunkICC_ok P h0 hn, ExtractICC_perm_chunks P h0 hn _ (List.Perm.refl _)⟩

/-- A three-byte profile goes through `ChunkICC` and back through `ExtractICC`. -/
theorem C1_round_trip_witness :
    ∃ payloads, ChunkICC [10, 20, 30] = .ok payloads ∧
      ExtractICC payloads = .ok (some [10, 20, 30]) :=
  C1_round_trip [10, 20, 30] (by decide) (by decide)

/-- **C2.** Order independence: for every profile `P` of at least one byte and at most
`16,707,345` bytes, `ExtractICC` on any permutation of the payload list `ChunkICC P`
returns exactly `P`, which is also what it returns on the list in its original order. -/
theorem C2_order_independence (P : List Byte) (h1 : 1 ≤ P.length)
    (h2 : P.length ≤ 16707345) :
    ∃ payloads, ChunkICC P = .ok payloads ∧
      ∀ shuffled : List (List Byte), shuffled.Perm payloads →
        ExtractICC shuffled = .ok (some P) ∧ ExtractICC shuffled = ExtractICC payloads := by
  have h0 : P.length ≠ 0 := by omega
  have hn : numChunksOf P ≤ 255 := (numChunksOf_le_iff P).mpr h2
  refine ⟨_, ChunkICC_ok P h0 hn, fun shuffled hp => ?_⟩
  have hs := ExtractICC_perm_chunks P h0 hn shuffled hp
  have ho := ExtractICC_perm_chunks P h0 hn _ (List.Perm.refl _)
  exact ⟨hs, hs.trans ho.symm⟩

/-- The payloads of a three-byte profile, read in any order, give the profile back. -/
theorem C2_order_independence_witness :
    ∃ payloads, ChunkICC [10, 20, 30] = .ok payloads ∧
      ∀ shuffled : List (List Byte), shuffled.Perm payloads →
        ExtractICC shuffled = .ok (some [10, 20, 30]) ∧
          ExtractICC shuffled = ExtractICC payloads :=
  C2_order_independence [10, 20, 30] (by decide) (by decide)

/-- **C3.** `ChunkICC P` returns an error exactly when `P` is empty or longer than
`255 * 65519 = 16,707,345` bytes: the empty profile fails with the empty-profile error,
a profile needing 256 chunks or more fails with the capacity error (which reports the
chunk count, at least 256), and a profile needing exactly 255 chunks succeeds, with 255
payloads. -/
theorem C3_chunk_errors (P : List Byte) :
    ((∃ err, ChunkICC P = .error err) ↔ (P.length = 0 ∨ P.length > 16707345)) ∧
    (P.length = 0 → ChunkICC P = .error .emptyProfile) ∧
    (P.length > 255 * 65519 →
      ∃ k, 256 ≤ k ∧ (k - 1) * 65519 < P.length ∧ P.length ≤ k * 65519 ∧
        ChunkICC P = .error (.tooLarge k)) ∧
    (254 * 65519 < P.length → P.length ≤ 255 * 65519 →
      ∃ payloads, ChunkICC P = .ok payloads ∧ payloads.length = 255) := by
  have hempty : P.length = 0 → ChunkICC P = .error .emptyProfile := by
    intro h; simp [ChunkICC, h]
  have hbig : P.length > 255 * 65519 →
      ∃ k, 256 ≤ k ∧ (k - 1) * 65519 < P.length ∧ P.length ≤ k * 65519 ∧
        ChunkICC P = .error (.tooLarge k) := by
    intro h
    have h0 : P.length ≠ 0 := by omega
    have hb := numChunksOf_bounds P h0
    have hk : numChunksOf P > 255 := by
      have := numChunksOf_le_iff P
      omega
    refine ⟨numChunksOf P, hk, ?_, ?_, ?_⟩
    · unfold maxChunkDataSize at hb; exact hb.2.1
    · unfold maxChunkDataSize at hb; exact hb.2.2
    · unfold numChunksOf at hk
      simp only [ChunkICC, h0, if_false, hk, if_true]
      rfl
  have hok : 1 ≤ P.length → P.length ≤ 255 * 65519 → ∃ payloads, ChunkICC P = .ok payloads ∧
      payloads.length = numChunksOf P := by
    intro h1 h2
    have h0 : P.length ≠ 0 := by omega
    have hn : numChunksOf P ≤ 255 := (numChunksOf_le_iff P).mpr (by omega)
    exact ⟨_, ChunkICC_ok P h0 hn, by simp⟩
  refine ⟨⟨?_, ?_⟩, hempty, hbig, ?_⟩
  · rintro ⟨err, herr⟩
    by_contra hcon
    obtain ⟨payloads, hp, _⟩ := hok (by omega) (by omega)
    rw [hp] at herr
    cases herr
  · rintro (h | h)
    · exact ⟨_, hempty h⟩
    · obtain ⟨k, _, _, _, hk⟩ := hbig (by omega)
      exact ⟨_, hk⟩
  · intro h1 h2
    obtain ⟨payloads, hp, hlen⟩ := hok (by omega) h2
    refine ⟨payloads, hp, ?_⟩
    rw [hlen]
    unfold numChunksOf maxChunkDataSize
    omega

/-- The empty profile is refused, and a one-byte profile is not. -/
theorem C3_chunk_errors_witness :
    ChunkICC [] = .error .emptyProfile ∧ ¬ ∃ err, ChunkICC [7] = .error err :=
  ⟨(C3_chunk_errors []).2.1 rfl, fun h => by
    have := (C3_chunk_errors [7]).1.mp h
    simp at this⟩

/-- **C4.** Wire format: when `ChunkICC P` succeeds with `n` payloads, `n` is
`ceil(len(P) / 65519)` (the least `n` with `len(P) ≤ n * 65519`, computed as
`(len(P) + 65518) / 65519`) and `1 ≤ n ≤ 255`; the payload at index `i` (sequence number
`i + 1`) is the 12 bytes of the tag, one byte equal to `i + 1`, one byte equal to `n`,
then the bytes `P[i*65519 : (i+1)*65519]` of the profile, between 1 and 65519 of them;
hence every payload has at most 65533 bytes, 65535 with the 2-byte length field. -/
theorem C4_wire_format (P : List Byte) (payloads : List (List Byte))
    (hok : ChunkICC P = .ok payloads) :
    payloads.length = ⌈(P.length : ℚ) / 65519⌉₊ ∧
    payloads.length = (P.length + 65518) / 65519 ∧
    (payloads.length - 1) * 65519 < P.length ∧ P.length ≤ payloads.length * 65519 ∧
    1 ≤ payloads.length ∧ payloads.length ≤ 255 ∧
    (∀ i, i < payloads.length →
      ∃ (seq count : Byte) (data : List Byte),
        payloads[i]? = some (iccMarkerTag ++ [seq, count] ++ data) ∧
        seq.val = i + 1 ∧ count.val = payloads.length ∧
        data = (P.take ((i + 1) * 65519)).drop (i * 65519) ∧
        1 ≤ data.length ∧ data.length ≤ 65519) ∧
    (∀ p ∈ payloads, 15 ≤ p.length ∧ p.length ≤ 65533 ∧ p.length + 2 ≤ 65535) := by
  have h0 : P.length ≠ 0 := by
    intro h
    simp [ChunkICC, h] at hok
  have hn : numChunksOf P ≤ 255 := by
    by_contra hcon
    have hgt : (P.length + maxChunkDataSize - 1) / maxChunkDataSize > 255 := by
      unfold numChunksOf at hcon; omega
    simp [ChunkICC, h0, hgt] at hok
  rw [ChunkICC_ok P h0 hn] at hok
  have hpay : payloads = (List.range (numChunksOf P)).map (chunkAt P (numChunksOf P)) := by
    injection hok with h; exact h.symm
  have hlen : payloads.length = numChunksOf P := by rw [hpay]; simp
  have hb := numChunksOf_bounds P h0
  have hformat : ∀ i, i < numChunksOf P →
      ∃ (seq count : Byte) (data : List Byte),
        chunkAt P (numChunksOf P) i = iccMarkerTag ++ [seq, count] ++ data ∧
        seq.val = i + 1 ∧ count.val = numChunksOf P ∧
        data = (P.take ((i + 1) * 65519)).drop (i * 65519) ∧
        1 ≤ data.length ∧ data.length ≤ 65519 := by
    intro i hi
    have hl := length_pieceAt P i hi
    refine ⟨toByte (i + 1), toByte (numChunksOf P), pieceAt P i, chunkAt_eq _ _ _, ?_, ?_,
      rfl, hl.1, hl.2⟩
    · show (i + 1) % 256 = i + 1
      omega
    · show numChunksOf P % 256 = numChunksOf P
      omega
  have hceil : numChunksOf P = ⌈(P.length : ℚ) / 65519⌉₊ := by
    symm
    rw [Nat.ceil_eq_iff (by omega)]
    have hlo : (numChunksOf P - 1) * 65519 < P.length := hb.2.1
    have hhi : P.length ≤ numChunksOf P * 65519 := hb.2.2
    constructor
    · rw [lt_div_iff₀ (by norm_num)]
      exact_mod_cast hlo
    · rw [div_le_iff₀ (by norm_num)]
      exact_mod_cast hhi
  rw [hlen]
  refine ⟨hceil, ?_, ?_, ?_, hb.1, hn, ?_, ?_⟩
  · unfold numChunksOf maxChunkDataSize; omega
  · unfold maxChunkDataSize at hb; exact hb.2.1
  · unfold maxChunkDataSize at hb; exact hb.2.2
  · intro i hi
    obtain ⟨seq, count, data, hc, hrest⟩ := hformat i hi
    refine ⟨seq, count, data, ?_, hrest⟩
    rw [hpay, List.getElem?_map, List.getElem?_range hi, Option.map_some', hc]
  · intro p hp
    rw [hpay] at hp
    obtain ⟨i, hi, rfl⟩ := List.mem_map.mp hp
    obtain ⟨seq, count, data, hc, _, _, _, hd1, hd2⟩ := hformat i (List.mem_range.mp hi)
    rw [hc]
    simp only [List.length_append, iccMarkerTag, List.length_cons, List.length_nil]
    omega

/-- The single payload written for a three-byte profile. -/
theorem C4_wire_format_witness :
    [iccMarkerTag ++ [1, 1, 10, 20, 30]].length = (([10, 20, 30] : List Byte).length + 65518) / 65519 ∧
    ∀ p ∈ [iccMarkerTag ++ [1, 1, 10, 20, 30]], p.length ≤ 65533 :=
  have h := C4_wire_format [10, 20, 30] [iccMarkerTag ++ [1, 1, 10, 20, 30]] (by decide)
  ⟨h.2.1, fun p hp => (h.2.2.2.2.2.2.2 p hp).2.1⟩

end jpeg

/-! The ICC header validator -/

namespace color

theorem slice_append_left (hdr rest : List Byte) (lo hi : Nat) (h : hi ≤ hdr.length) :
    slice (hdr ++ rest) lo hi = slice hdr lo hi := by
  unfold slice
  rw [List.take_append_of_le_length h]

theorem getD_append_left (hdr rest : List Byte) (i : Nat) (h : i < hdr.length) :
    (hdr ++ rest).getD i 0 = hdr.getD i 0 := by
  simp [List.getD_eq_getElem?_getD, List.getElem?_append_left h]

/-- `ParseProfileInfo` on a 128-byte header followed by any further bytes: only the total
length and the header decide the result. -/
theorem ParseProfileInfo_append (hdr rest : List Byte) (hlen : hdr.length = 128) :
    ParseProfileInfo (hdr ++ rest) =
      if toUint32 (128 + rest.length) > maxProfileSize then
        .error (.tooLarge (128 + rest.length) maxProfileSize)
      else ParseProfileInfo hdr := by
  have hl : (hdr ++ rest).length = 128 + rest.length := by rw [List.length_append, hlen]
  have h1 : ¬ (128 + rest.length < 128) := by omega
  have h2 : ¬ (hdr.length < 128) := by omega
  have h3 : ¬ (toUint32 hdr.length > maxProfileSize) := by
    rw [hlen]; decide
  unfold ParseProfileInfo
  rw [hl]
  simp only [h1, h2, h3, if_false]
  rw [slice_append_left _ _ 36 40 (by omega), slice_append_left _ _ 0 4 (by omega),
    slice_append_left _ _ 16 20 (by omega), slice_append_left _ _ 20 24 (by omega),
    slice_append_left _ _ 12 16 (by omega), getD_append_left _ _ 8 (by omega),
    getD_append_left _ _ 9 (by omega)]

set_option maxRecDepth 8000 in
theorem ParseProfileInfo_acspHeader :
    ParseProfileInfo acspHeader =
      .ok { Size := 0, Version := "0.0.0", ColorSpace := [0, 0, 0, 0], PCS := [0, 0, 0, 0],
            Class := [0, 0, 0, 0] } := by
  decide

/-- **C10.** The size guard of `ParseProfileInfo` compares `uint32(len(data))`, so it does
not reject every input longer than 4 MiB: the input of `2^32 + 128` bytes made of a valid
128-byte header followed by `2^32` zero bytes has `uint32(len(data)) = 128` and is
accepted. -/
theorem C10_oversized_profile_accepted :
    oversizedProfile.length = 4294967424 ∧ oversizedProfile.length > 4194304 ∧
    toUint32 oversizedProfile.length = 128 ∧
    ParseProfileInfo oversizedProfile =
      .ok { Size := 0, Version := "0.0.0", ColorSpace := [0, 0, 0, 0], PCS := [0, 0, 0, 0],
            Class := [0, 0, 0, 0] } := by
  have hhdr : acspHeader.length = 128 := by simp [acspHeader]
  have hlen : oversizedProfile.length = 4294967424 := by
    unfold oversizedProfile
    rw [List.length_append, List.length_replicate, hhdr]
    norm_num
  refine ⟨hlen, by rw [hlen]; decide, by rw [hlen]; decide, ?_⟩
  unfold oversizedProfile
  rw [ParseProfileInfo_append _ _ hhdr, List.length_replicate,
    if_neg (by decide), ParseProfileInfo_acspHeader]

/-- Below `2^32` bytes the guard does what the constant says: every input longer than
4 MiB is refused with the too-large error, whatever its content. -/
theorem ParseProfileInfo_tooLarge (data : List Byte) (h : data.length > 4194304)
    (h32 : data.length < 2 ^ 32) :
    ParseProfileInfo data = .error (.tooLarge data.length maxProfileSize) := by
  have h1 : ¬ (data.length < 128) := by omega
  have h2 : toUint32 data.length > maxProfileSize := by
    unfold toUint32 maxProfileSize
    rw [Nat.mod_eq_of_lt h32]
    omega
  simp [ParseProfileInfo, h1, h2]

theorem getElem?_slice (data : List Byte) (lo hi k : Nat) :
    (slice data lo hi)[k]? = if lo + k < hi then data[lo + k]? else none := by
  unfold slice
  rw [List.getElem?_drop, List.getElem?_take]

theorem getD_slice (data : List Byte) (lo hi k : Nat) (h : lo + k < hi) :
    (slice data lo hi).getD k 0 = data.getD (lo + k) 0 := by
  simp only [List.getD_eq_getElem?_getD, getElem?_slice, h, if_true]

theorem slice_four (data : List Byte) (lo : Nat) (h : lo + 4 ≤ data.length) :
    slice data lo (lo + 4) =
      [data.getD lo 0, data.getD (lo + 1) 0, data.getD (lo + 2) 0, data.getD (lo + 3) 0] := by
  apply List.ext_getElem?
  intro k
  rw [getElem?_slice]
  rcases k with _ | _ | _ | _ | k
  · simp [List.getD_eq_getElem?_getD, List.getElem?_eq_getElem (show lo < data.length by omega)]
  · simp [List.getD_eq_getElem?_getD, List.getElem?_eq_getElem (show lo + 1 < data.length by omega)]
  · simp [List.getD_eq_getElem?_getD, List.getElem?_eq_getElem (show lo + 2 < data.length by omega)]
  · simp [List.getD_eq_getElem?_getD, List.getElem?_eq_getElem (show lo + 3 < data.length by omega)]
  · simp

theorem or_shiftLeft (x y i : Nat) (h : x < 2 ^ i) : x ||| y * 2 ^ i = y * 2 ^ i + x := by
  rw [Nat.or_comm, Nat.mul_comm]
  exact (Nat.mul_add_lt_is_or h y).symm

theorem bigEndianUint32_eq (b : List Byte) :
    bigEndianUint32 b =
      (b.getD 0 0).val * 2 ^ 24 + (b.getD 1 0).val * 2 ^ 16 + (b.getD 2 0).val * 2 ^ 8 +
        (b.getD 3 0).val := by
  unfold bigEndianUint32
  generalize b.getD 0 0 = b0
  generalize b.getD 1 0 = b1
  generalize b.getD 2 0 = b2
  generalize b.getD 3 0 = b3
  have h0 := b0.isLt
  have h1 := b1.isLt
  have h2 := b2.isLt
  have h3 := b3.isLt
  simp only [Nat.shiftLeft_eq]
  have e1 := or_shiftLeft b3.val b2.val 8 (by omega)
  have e2 := or_shiftLeft (b2.val * 2 ^ 8 + b3.val) b1.val 16 (by omega)
  have e3 := or_shiftLeft (b1.val * 2 ^ 16 + (b2.val * 2 ^ 8 + b3.val)) b0.val 24 (by omega)
  rw [e1, e2, e3]
  omega

theorem bigEndianUint32_four (a b c d : Byte) :
    bigEndianUint32 [a, b, c, d] = a.val * 2 ^ 24 + b.val * 2 ^ 16 + c.val * 2 ^ 8 + d.val := by
  rw [bigEndianUint32_eq]
  rfl

/-- The signature test passes exactly on the four bytes 'a' 'c' 's' 'p'. -/
theorem acsp_iff (a b c d : Byte) :
    bigEndianUint32 [a, b, c, d] = acspMagic ↔
      [a, b, c, d] = ([0x61, 0x63, 0x73, 0x70] : List Byte) := by
  rw [bigEndianUint32_four]
  have ha := a.isLt
  have hb := b.isLt
  have hc := c.isLt
  have hd := d.isLt
  unfold acspMagic
  constructor
  · intro h
    have ea : a = 0x61 := Fin.ext (by show a.val = 97; omega)
    have eb : b = 0x63 := Fin.ext (by show b.val = 99; omega)
    have ec : c = 0x73 := Fin.ext (by show c.val = 115; omega)
    have ed : d = 0x70 := Fin.ext (by show d.val = 112; omega)
    rw [ea, eb, ec, ed]
  · intro h
    simp only [List.cons.injEq, and_true] at h
    obtain ⟨rfl, rfl, rfl, rfl⟩ := h
    rfl

/-- What `ParseProfileInfo` computes once both length tests are passed. -/
theorem ParseProfileInfo_of_length (data : List Byte) (h128 : 128 ≤ data.length)
    (hmax : toUint32 data.length ≤ maxProfileSize) :
    ParseProfileInfo data =
      if bigEndianUint32 (slice data 36 40) ≠ acspMagic then
        .error (.invalidSignature (bigEndianUint32 (slice data 36 40)) acspMagic)
      else
        .ok { Size := bigEndianUint32 (slice data 0 4)
              Version := toString (data.getD 8 0).val ++ "." ++
                toString ((data.getD 9 0).val >>> 4) ++ "." ++
                toString ((data.getD 9 0).val &&& 0x0f)
              ColorSpace := slice data 16 20
              PCS := slice data 20 24
              Class := slice data 12 16 } := by
  have h1 : ¬ data.length < 128 := by omega
  have h2 : ¬ toUint32 data.length > maxProfileSize := by omega
  unfold ParseProfileInfo
  simp only [h1, h2, if_false]

theorem toUint32_le_of_le (n : Nat) (h : n ≤ 4194304) : toUint32 n ≤ maxProfileSize := by
  unfold toUint32 maxProfileSize
  omega

/-- A successful `ParseProfileInfo` means that the input passed the three tests. -/
theorem ParseProfileInfo_ok_inv (data : List Byte) (info : ProfileInfo)
    (h : ParseProfileInfo data = .ok info) :
    128 ≤ data.length ∧ toUint32 data.length ≤ maxProfileSize ∧
      bigEndianUint32 (slice data 36 40) = acspMagic := by
  unfold ParseProfileInfo at h
  by_cases h1 : data.length < 128
  · simp [h1] at h
  · by_cases h2 : toUint32 data.length > maxProfileSize
    · simp [h1, h2] at h
    · by_cases h3 : bigEndianUint32 (slice data 36 40) = acspMagic
      · exact ⟨by omega, by omega, h3⟩
      · simp [h1, h2, h3] at h

/-- **C11.** For an input of at most 4 MiB, `ParseProfileInfo` succeeds if and only if the
input has at least 128 bytes and `data[36:40]` is 'a' 'c' 's' 'p' (whose big-endian value
is `acspMagic = 0x61637370`); an input of fewer than 128 bytes fails with the too-short
error, and an input of at least 128 bytes with other bytes at offset 36 fails with the
invalid-signature error, which reports the value read. -/
theorem C11_header_accepted_iff (data : List Byte) (hmax : data.length ≤ 4194304) :
    ((∃ info, ParseProfileInfo data = .ok info) ↔
      (128 ≤ data.length ∧ slice data 36 40 = [0x61, 0x63, 0x73, 0x70])) ∧
    (data.length < 128 → ParseProfileInfo data = .error .tooShort) ∧
    (128 ≤ data.length → slice data 36 40 ≠ [0x61, 0x63, 0x73, 0x70] →
      ParseProfileInfo data =
        .error (.invalidSignature (bigEndianUint32 (slice data 36 40)) 0x61637370)) := by
  have hsig : 128 ≤ data.length →
      (bigEndianUint32 (slice data 36 40) = acspMagic ↔
        slice data 36 40 = [0x61, 0x63, 0x73, 0x70]) := by
    intro h128
    rw [slice_four data 36 (by omega)]
    exact acsp_iff _ _ _ _
  have hshort : data.length < 128 → ParseProfileInfo data = .error .tooShort := by
    intro h
    simp [ParseProfileInfo, h]
  have hbad : 128 ≤ data.length → slice data 36 40 ≠ [0x61, 0x63, 0x73, 0x70] →
      ParseProfileInfo data =
        .error (.invalidSignature (bigEndianUint32 (slice data 36 40)) 0x61637370) := by
    intro h128 hne
    have hne2 : bigEndianUint32 (slice data 36 40) ≠ acspMagic :=
      fun h => hne ((hsig h128).mp h)
    rw [ParseProfileInfo_of_length data h128 (toUint32_le_of_le _ hmax), if_pos hne2]
    rfl
  refine ⟨⟨?_, ?_⟩, hshort, hbad⟩
  · rintro ⟨info, hinfo⟩
    obtain ⟨h128, _, h3⟩ := ParseProfileInfo_ok_inv data info hinfo
    exact ⟨h128, (hsig h128).mp h3⟩
  · rintro ⟨h128, hacsp⟩
    have h3 : ¬ bigEndianUint32 (slice data 36 40) ≠ acspMagic :=
      fun h => h ((hsig h128).mpr hacsp)
    rw [ParseProfileInfo_of_length data h128 (toUint32_le_of_le _ hmax), if_neg h3]
    exact ⟨_, rfl⟩

/-- A buffer of 127 zero bytes is too short. -/
theorem C11_header_accepted_iff_witness :
    ParseProfileInfo (List.replicate 127 0) = .error .tooShort :=
  (C11_header_accepted_iff (List.replicate 127 0) (by simp)).2.1 (by simp)

/-- **C12.** When `ParseProfileInfo` succeeds, the input has at least 128 bytes and the
header returned has `Size` = the big-endian value of bytes 0..3, `Class` = the four bytes
at offsets 12..15, `ColorSpace` = the four bytes at offsets 16..19 and `PCS` = the four
bytes at offsets 20..23. -/
theorem C12_header_fields (data : List Byte) (info : ProfileInfo)
    (h : ParseProfileInfo data = .ok info) :
    128 ≤ data.length ∧
    info.Size = (data.getD 0 0).val * 2 ^ 24 + (data.getD 1 0).val * 2 ^ 16 +
      (data.getD 2 0).val * 2 ^ 8 + (data.getD 3 0).val ∧
    info.Class = [data.getD 12 0, data.getD 13 0, data.getD 14 0, data.getD 15 0] ∧
    info.ColorSpace = [data.getD 16 0, data.getD 17 0, data.getD 18 0, data.getD 19 0] ∧
    info.PCS = [data.getD 20 0, data.getD 21 0, data.getD 22 0, data.getD 23 0] := by
  obtain ⟨h128, hmax, h3⟩ := ParseProfileInfo_ok_inv data info h
  rw [ParseProfileInfo_of_length data h128 hmax, if_neg (fun hne => hne h3)] at h
  injection h with h
  subst h
  refine ⟨h128, ?_, ?_, ?_, ?_⟩
  · show bigEndianUint32 (slice data 0 4) = _
    rw [slice_four data 0 (by omega), bigEndianUint32_four]
  · exact slice_four data 12 (by omega)
  · exact slice_four data 16 (by omega)
  · exact slice_four data 20 (by omega)

set_option maxRecDepth 8000 in
/-- The all-zero header with the signature has size 0 and zero signatures. -/
theorem C12_header_fields_witness :
    ∃ info, ParseProfileInfo acspHeader = .ok info ∧ info.Size = 0 ∧
      info.ColorSpace = [0, 0, 0, 0] :=
  ⟨_, ParseProfileInfo_acspHeader,
    ((C12_header_fields acspHeader _ ParseProfileInfo_acspHeader).2.1).trans (by decide),
    ((C12_header_fields acspHeader _ ParseProfileInfo_acspHeader).2.2.2.1).trans (by decide)⟩

theorem nibbles (x : Nat) : x >>> 4 = x / 16 ∧ x &&& 0x0f = x % 16 :=
  ⟨Nat.shiftRight_eq_div_pow x 4, Nat.and_pow_two_sub_one_eq_mod x 4⟩

/-- **C13.** When `ParseProfileInfo` succeeds, `Version` is the text `M.m.b` with `M` the
byte 8, `m` the high nibble of byte 9 and `b` the low nibble of byte 9, each written in
decimal; with byte 8 = 2 and byte 9 = 0x40 it is "2.4.0". -/
theorem C13_version (data : List Byte) (info : ProfileInfo)
    (h : ParseProfileInfo data = .ok info) :
    info.Version = toString (data.getD 8 0).val ++ "." ++
        toString ((data.getD 9 0).val / 16) ++ "." ++ toString ((data.getD 9 0).val % 16) ∧
    (data.getD 8 0 = 2 → data.getD 9 0 = 0x40 → info.Version = "2.4.0") := by
  obtain ⟨h128, hmax, h3⟩ := ParseProfileInfo_ok_inv data info h
  rw [ParseProfileInfo_of_length data h128 hmax, if_neg (fun hne => hne h3)] at h
  injection h with h
  subst h
  have hv : (toString (data.getD 8 0).val ++ "." ++ toString ((data.getD 9 0).val >>> 4) ++
      "." ++ toString ((data.getD 9 0).val &&& 0x0f)) =
      toString (data.getD 8 0).val ++ "." ++
        toString ((data.getD 9 0).val / 16) ++ "." ++ toString ((data.getD 9 0).val % 16) := by
    rw [(nibbles _).1, (nibbles _).2]
  refine ⟨hv, ?_⟩
  intro h8 h9
  show (toString (data.getD 8 0).val ++ "." ++ toString ((data.getD 9 0).val >>> 4) ++
      "." ++ toString ((data.getD 9 0).val &&& 0x0f)) = "2.4.0"
  rw [hv, h8, h9]
  decide

set_option maxRecDepth 8000 in
/-- A header with byte 8 = 2 and byte 9 = 0x40 has the version "2.4.0". -/
theorem C13_version_witness :
    ∃ info, ParseProfileInfo version24Header = .ok info ∧ info.Version = "2.4.0" :=
  ⟨{ Size := 0, Version := "2.4.0", ColorSpace := [0, 0, 0, 0], PCS := [0, 0, 0, 0],
     Class := [0, 0, 0, 0] }, by decide,
    (C13_version version24Header _ (by decide)).2 (by decide) (by decide)⟩

/-- **C14.** The declared size is never cross-checked: when `ParseProfileInfo` accepts a
buffer, it also accepts the buffer with bytes 0..3 replaced by any four bytes, and the
header returned is the same except for `Size`, which is the big-endian value of the new
bytes (whatever its relation to the real length). -/
theorem C14_size_not_cross_checked (data : List Byte) (info : ProfileInfo)
    (h : ParseProfileInfo data = .ok info) (a b c d : Byte) :
    ([a, b, c, d] ++ data.drop 4).length = data.length ∧
    ParseProfileInfo ([a, b, c, d] ++ data.drop 4) =
      .ok { info with Size := a.val * 2 ^ 24 + b.val * 2 ^ 16 + c.val * 2 ^ 8 + d.val } := by
  obtain ⟨h128, hmax, h3⟩ := ParseProfileInfo_ok_inv data info h
  have hlen : ([a, b, c, d] ++ data.drop 4).length = data.length := by
    simp only [List.length_append, List.length_cons, List.length_nil, List.length_drop]
    omega
  have hget : ∀ k, 4 ≤ k → ([a, b, c, d] ++ data.drop 4)[k]? = data[k]? := by
    intro k hk
    rw [List.getElem?_append_right (by simpa using hk), List.getElem?_drop]
    congr 1
    simp only [List.length_cons, List.length_nil]
    omega
  have hslice : ∀ lo hi, 4 ≤ lo →
      slice ([a, b, c, d] ++ data.drop 4) lo hi = slice data lo hi := by
    intro lo hi hlo
    apply List.ext_getElem?
    intro k
    rw [getElem?_slice, getElem?_slice, hget _ (by omega)]
  have hgetD : ∀ k, 4 ≤ k → ([a, b, c, d] ++ data.drop 4).getD k 0 = data.getD k 0 := by
    intro k hk
    simp only [List.getD_eq_getElem?_getD, hget k hk]
  have hfirst : slice ([a, b, c, d] ++ data.drop 4) 0 4 = [a, b, c, d] := by
    unfold slice
    simp
  refine ⟨hlen, ?_⟩
  rw [ParseProfileInfo_of_length data h128 hmax, if_neg (fun hne => hne h3)] at h
  injection h with h
  subst h
  rw [ParseProfileInfo_of_length _ (by omega) (by rw [hlen]; exact hmax),
    hslice 36 40 (by omega), if_neg (fun hne => hne h3), hfirst, bigEndianUint32_four,
    hslice 16 20 (by omega), hslice 20 24 (by omega), hslice 12 16 (by omega),
    hgetD 8 (by omega), hgetD 9 (by omega)]

set_option maxRecDepth 8000 in
/-- The all-zero header with its size bytes replaced by `00 00 01 00` is accepted, with
`Size = 256`. -/
theorem C14_size_not_cross_checked_witness :
    ParseProfileInfo ([0, 0, 1, 0] ++ acspHeader.drop 4) =
      .ok { Size := 256, Version := "0.0.0", ColorSpace := [0, 0, 0, 0],
            PCS := [0, 0, 0, 0], Class := [0, 0, 0, 0] } :=
  (C14_size_not_cross_checked acspHeader _ ParseProfileInfo_acspHeader 0 0 1 0).2

end color

/-! The quantization tables -/

theorem wrapInt64_of_range (x : Int) (h1 : -2 ^ 63 ≤ x) (h2 : x < 2 ^ 63) :
    wrapInt64 x = x := by
  unfold wrapInt64
  omega

namespace jpeg

theorem ScaleQuantTable_apply (base : Fin 64 → Int) (quality : Int) (i : Fin 64) :
    ScaleQuantTable base quality i = entryOf (base i) (scaleOf quality) := rfl

theorem entryOf_bounds (b scale : Int) : 1 ≤ entryOf b scale ∧ entryOf b scale ≤ 255 := by
  unfold entryOf toUint16
  simp only
  generalize Int.tdiv (wrapInt64 (wrapInt64 (b * scale) + 50)) 100 = v
  split <;> split <;> omega

theorem scaleOf_eq_spec (quality : Int) : scaleOf quality = specScaleFactor quality := by
  unfold scaleOf specScaleFactor specQuality
  simp only
  by_cases h0 : quality ≤ 0
  · have e : max 1 (min 100 quality) = 1 := by omega
    simp only [h0, if_true, e]
    decide
  · by_cases h100 : quality > 100
    · have e : max 1 (min 100 quality) = 100 := by omega
      simp only [h0, if_false, h100, if_true, e]
      decide
    · have e : max 1 (min 100 quality) = quality := by omega
      simp only [h0, if_false, h100, e]
      by_cases h50 : quality < 50
      · simp only [h50, if_true]
        exact Int.tdiv_eq_ediv (by decide) (by omega)
      · simp only [h50, if_false]
        omega

theorem specScaleFactor_bounds (quality : Int) :
    0 ≤ specScaleFactor quality ∧ specScaleFactor quality ≤ 5000 := by
  unfold specScaleFactor
  have hq : 1 ≤ specQuality quality ∧ specQuality quality ≤ 100 := by
    unfold specQuality; omega
  generalize specQuality quality = q at hq ⊢
  split
  · constructor
    · exact Int.ediv_nonneg (by decide) (by omega)
    · exact Int.ediv_le_self q (by decide)
  · omega

theorem entryOf_eq_spec (b scale : Int) (hs0 : 0 ≤ scale) (hs : scale ≤ 5000)
    (hb0 : 0 ≤ b) (hb : b < 2 ^ 31) :
    (entryOf b scale : Int) = max 1 (min 255 ((b * scale + 50) / 100)) := by
  have hp0 : 0 ≤ b * scale := Int.mul_nonneg hb0 hs0
  have hp : b * scale ≤ 2 ^ 31 * 5000 :=
    Int.mul_le_mul (by omega) hs hs0 (by decide)
  have e1 : wrapInt64 (b * scale) = b * scale :=
    wrapInt64_of_range _ (by omega) (by omega)
  have e2 : wrapInt64 (b * scale + 50) = b * scale + 50 :=
    wrapInt64_of_range _ (by omega) (by omega)
  unfold entryOf toUint16
  simp only [e1, e2]
  rw [Int.tdiv_eq_ediv (by omega) (by decide)]
  generalize (b * scale + 50) / 100 = v
  split <;> split <;> omega

/-- **C15.** Scaling formula: for a base table whose 64 entries are non-negative and
below `2^31`, and every integer quality, entry `i` of `ScaleQuantTable base quality` is
`clamp(floor((base[i] * s + 50) / 100), 1, 255)`, with `q` the quality clamped to
`[1, 100]` and `s = floor(5000 / q)` if `q < 50`, else `s = 200 - 2 * q`. -/
theorem C15_scaling_formula (base : Fin 64 → Int) (quality : Int)
    (hbase : ∀ i, 0 ≤ base i ∧ base i < 2 ^ 31) (i : Fin 64) :
    (ScaleQuantTable base quality i : Int) = specScaleEntry (base i) quality := by
  have hs := specScaleFactor_bounds quality
  rw [ScaleQuantTable_apply, scaleOf_eq_spec]
  exact entryOf_eq_spec _ _ hs.1 hs.2 (hbase i).1 (hbase i).2

/-- The first entry of the standard table at quality 75: `(16 * 50 + 50) / 100 = 8`. -/
theorem C15_scaling_formula_witness :
    (ScaleQuantTable stdLuminanceQuant 75 0 : Int) = specScaleEntry 16 75 ∧
      specScaleEntry 16 75 = 8 :=
  ⟨C15_scaling_formula stdLuminanceQuant 75 (by decide) 0, by decide⟩

/-- **C16.** Quality 50 is the identity: for a table whose 64 entries lie in `[1, 255]`,
`ScaleQuantTable table 50` has the same 64 values, entry for entry. -/
theorem C16_quality_50_identity (table : Fin 64 → Int)
    (hrange : ∀ i, 1 ≤ table i ∧ table i ≤ 255) (i : Fin 64) :
    (ScaleQuantTable table 50 i : Int) = table i := by
  have h50 : scaleOf 50 = 100 := by decide
  obtain ⟨h1, h2⟩ := hrange i
  rw [ScaleQuantTable_apply, h50,
    entryOf_eq_spec _ _ (by decide) (by decide) (by omega) (by omega)]
  omega

/-- The entry 40 of the standard table (index 5) is left unchanged by quality 50. -/
theorem C16_quality_50_identity_witness :
    (ScaleQuantTable stdLuminanceQuant 50 5 : Int) = stdLuminanceQuant 5 ∧
      stdLuminanceQuant 5 = 40 :=
  ⟨C16_quality_50_identity stdLuminanceQuant (by decide) 5, by decide⟩

/-- **C17.** Quality 100 floors to one: for every 64-entry base table, every entry of
`ScaleQuantTable table 100` is 1 (the scale factor is 0). -/
theorem C17_quality_100_all_ones (table : Fin 64 → Int) (i : Fin 64) :
    ScaleQuantTable table 100 i = 1 ∧ scaleOf 100 = 0 := by
  have h100 : scaleOf 100 = 0 := by decide
  refine ⟨?_, h100⟩
  rw [ScaleQuantTable_apply, h100]
  unfold entryOf
  rw [Int.mul_zero]
  decide

/-- Without overflow of `quality - cmyReduction`, `GenerateQuantTables` is the pair of
scaled standard tables at `max(1, quality - cmyReduction)` and at `quality`. -/
theorem GenerateQuantTables_of_range (quality cmyReduction : Int)
    (h1 : -2 ^ 63 ≤ quality - cmyReduction) (h2 : quality - cmyReduction < 2 ^ 63) :
    GenerateQuantTables quality cmyReduction =
      (ScaleQuantTable stdLuminanceQuant (max 1 (quality - cmyReduction)),
        ScaleQuantTable stdLuminanceQuant quality) := by
  have e : (if quality - cmyReduction < 1 then 1 else quality - cmyReduction) =
      max 1 (quality - cmyReduction) := by
    split <;> omega
  unfold GenerateQuantTables
  simp only [wrapInt64_of_range _ h1 h2, e]

set_option maxRecDepth 8000 in
/-- **C18 (as stated, refuted).** With `quality = 85` and `cmyReduction = -2^63` (the
least `int`), the difference `quality - cmyReduction` overflows and wraps to
`-2^63 + 85`, so the CMY table is the one of quality 1, not the one of
`max(1, 85 + 2^63)`, which clamps to quality 100. -/
theorem C18_overflow_counterexample :
    GenerateQuantTables 85 (-2 ^ 63) ≠
      (ScaleQuantTable stdLuminanceQuant (max 1 (85 - -2 ^ 63)),
        ScaleQuantTable stdLuminanceQuant 85) ∧
    (GenerateQuantTables 85 (-2 ^ 63)).1 0 = 255 ∧
    ScaleQuantTable stdLuminanceQuant (max 1 (85 - -2 ^ 63)) 0 = 1 := by
  have ha : (GenerateQuantTables 85 (-2 ^ 63)).1 0 = 255 := by decide
  have hb : ScaleQuantTable stdLuminanceQuant (max 1 (85 - -2 ^ 63)) 0 = 1 := by decide
  refine ⟨fun h => ?_, ha, hb⟩
  have h0 := congrFun (congrArg Prod.fst h) 0
  rw [ha] at h0
  simp only at h0
  rw [hb] at h0
  exact absurd h0 (by decide)

/-- **C18 (amended).** Asymmetric reduction: for all `int` values `quality` and
`cmyReduction` whose difference is an `int` (no 64-bit overflow),
`GenerateQuantTables quality cmyReduction` is the pair of `ScaleQuantTable std` at
`max(1, quality - cmyReduction)` and at `quality`, with `std` the Annex K luminance
table; `(85, 15)` gives the tables of qualities 70 and 85, and `(10, 15)` those of
qualities 1 and 10. -/
theorem C18_asymmetric_reduction :
    (∀ quality cmyReduction : Int,
      -2 ^ 63 ≤ quality - cmyReduction → quality - cmyReduction < 2 ^ 63 →
      GenerateQuantTables quality cmyReduction =
        (ScaleQuantTable stdLuminanceQuant (max 1 (quality - cmyReduction)),
          ScaleQuantTable stdLuminanceQuant quality)) ∧
    GenerateQuantTables 85 15 =
      (ScaleQuantTable stdLuminanceQuant 70, ScaleQuantTable stdLuminanceQuant 85) ∧
    GenerateQuantTables 10 15 =
      (ScaleQuantTable stdLuminanceQuant 1, ScaleQuantTable stdLuminanceQuant 10) ∧
    (List.finRange 64).map stdLuminanceQuant =
      [16, 11, 10, 16, 24, 40, 51, 61, 12, 12, 14, 19, 26, 58, 60, 55,
       14, 13, 16, 24, 40, 57, 69, 56, 14, 17, 22, 29, 51, 87, 80, 62,
       18, 22, 37, 56, 68, 109, 103, 77, 24, 35, 55, 64, 81, 104, 113, 92,
       49, 64, 78, 87, 103, 121, 120, 101, 72, 92, 95, 98, 112, 100, 103, 99] := by
  refine ⟨GenerateQuantTables_of_range, ?_, ?_, by decide⟩
  · exact GenerateQuantTables_of_range 85 15 (by decide) (by decide)
  · exact GenerateQuantTables_of_range 10 15 (by decide) (by decide)

/-- With a reduction larger than the quality the CMY quality is 1, not negative. -/
theorem C18_asymmetric_reduction_witness :
    GenerateQuantTables 3 20 =
      (ScaleQuantTable stdLuminanceQuant (max 1 (3 - 20)), ScaleQuantTable stdLuminanceQuant 3) :=
  C18_asymmetric_reduction.1 3 20 (by decide) (by decide)

/-- **C19.** Every entry of the table returned by `ScaleQuantTable`, and of both tables
returned by `GenerateQuantTables`, lies in `[1, 255]`, for every base table and all
integer `quality` and `cmyReduction` (zero, negative and above 100 included). -/
theorem C19_entries_in_range :
    (∀ (base : Fin 64 → Int) (quality : Int) (i : Fin 64),
      1 ≤ ScaleQuantTable base quality i ∧ ScaleQuantTable base quality i ≤ 255) ∧
    (∀ (quality cmyReduction : Int) (i : Fin 64),
      (1 ≤ (GenerateQuantTables quality cmyReduction).1 i ∧
        (GenerateQuantTables quality cmyReduction).1 i ≤ 255) ∧
      (1 ≤ (GenerateQuantTables quality cmyReduction).2 i ∧
        (GenerateQuantTables quality cmyReduction).2 i ≤ 255)) := by
  have hscale : ∀ (base : Fin 64 → Int) (quality : Int) (i : Fin 64),
      1 ≤ ScaleQuantTable base quality i ∧ ScaleQuantTable base quality i ≤ 255 := by
    intro base quality i
    rw [ScaleQuantTable_apply]
    exact entryOf_bounds _ _
  refine ⟨hscale, ?_⟩
  intro quality cmyReduction i
  unfold GenerateQuantTables
  exact ⟨hscale _ _ i, hscale _ _ i⟩

end jpeg

/-! The pipeline -/

namespace pipeline

/-- With an override set, the embedded profile plays no part in the choice of the source
profile, but the override goes through the grayscale test: it is handed on unless it
parses as a profile of colour space 'GRAY', and then the bundled profile replaces it. -/
theorem srcICC_of_override (EmbeddedSRGB override : List Byte) (opts : Options)
    (decoded : jpeg.DecodedRGB) (h : opts.SrcProfileOverride = some override) :
    srcICC EmbeddedSRGB opts decoded =
      match color.ParseProfileInfo override with
      | .ok pi => if pi.ColorSpace = GRAY then EmbeddedSRGB else override
      | .error _ => override := by
  unfold srcICC
  simp only [h]
  cases hp : color.ParseProfileInfo override with
  | error e => simp [hp]
  | ok pi =>
    by_cases hg : pi.ColorSpace = GRAY
    · simp [hp, hg]
    · simp [hp, hg]

/-- When decoding succeeds, `Run` calls `color.NewTransform` right after
`jpeg.DecodeRGB`, with the profile computed by step 2. -/
theorem Run_calls_NewTransform {T : Type} (c : Collaborators T) (jpegData : List Byte)
    (opts : Options) (decoded : jpeg.DecodedRGB) (hdec : c.DecodeRGB jpegData = .ok decoded) :
    ∃ rest, (Run c jpegData opts).2 =
      .DecodeRGB jpegData ::
        .NewTransform (srcICC c.EmbeddedSRGB opts decoded) opts.DstProfile opts.Intent ::
          rest := by
  unfold Run
  simp only [hdec]
  cases c.NewTransform (srcICC c.EmbeddedSRGB opts decoded) opts.DstProfile opts.Intent with
  | error e => exact ⟨_, rfl⟩
  | ok xform =>
    simp only
    cases c.TransformPixels xform decoded.Pixels decoded.Width decoded.Height with
    | error e => exact ⟨_, rfl⟩
    | ok cmykPixels =>
      simp only
      cases c.EncodeCMYK cmykPixels decoded.Width decoded.Height opts.DstProfile
        { Quality := opts.Quality, CMYReduction := opts.CMYReduction } with
      | error e => exact ⟨_, rfl⟩
      | ok encoded => exact ⟨_, rfl⟩

set_option maxRecDepth 20000 in
/-- **C20.** With `SrcProfileOverride` set to a valid 128-byte profile header of colour
space 'GRAY', `Run` does apply the grayscale test to the override: the override parses
as a 'GRAY' profile, and the source profile handed to `color.NewTransform` is the bundled
profile, not the override bytes. -/
theorem C20_gray_override_replaced :
    (∃ pi, color.ParseProfileInfo grayHeader = .ok pi ∧ pi.ColorSpace = GRAY) ∧
    grayHeader ≠ stubCollaborators.EmbeddedSRGB ∧
    (Run stubCollaborators []
      { SrcProfileOverride := some grayHeader, DstProfile := [9], Quality := 85,
        CMYReduction := 15, Intent := 0 }).2 =
      [.DecodeRGB [], .NewTransform stubCollaborators.EmbeddedSRGB [9] 0,
        .TransformPixels () [0, 0, 0] 1 1,
        .EncodeCMYK [0, 0, 0, 255] 1 1 [9] { Quality := 85, CMYReduction := 15 },
        .Close ()] := by
  have hparse : color.ParseProfileInfo grayHeader =
      .ok { Size := 0, Version := "0.0.0", ColorSpace := GRAY, PCS := [0, 0, 0, 0],
            Class := [0, 0, 0, 0] } := by
    decide
  exact ⟨⟨_, hparse, rfl⟩, by decide, by decide⟩

/-- The result of `Run` once decoding has succeeded: each later stage either fails, and
its error is returned with the stage prefix, or hands its value to the next one. -/
theorem Run_of_decoded {T : Type} (c : Collaborators T) (jpegData : List Byte)
    (opts : Options) (decoded : jpeg.DecodedRGB) (hdec : c.DecodeRGB jpegData = .ok decoded) :
    (Run c jpegData opts).1 =
      match c.NewTransform (srcICC c.EmbeddedSRGB opts decoded) opts.DstProfile opts.Intent with
      | .error err => .error (.colorTransformSetup err)
      | .ok xform =>
        match c.TransformPixels xform decoded.Pixels decoded.Width decoded.Height with
        | .error err => .error (.colorTransform err)
        | .ok cmykPixels =>
          match c.EncodeCMYK cmykPixels decoded.Width decoded.Height opts.DstProfile
            { Quality := opts.Quality, CMYReduction := opts.CMYReduction } with
          | .error err => .error (.encode err)
          | .ok encoded =>
            .ok { Data := encoded, SrcWidth := decoded.Width, SrcHeight := decoded.Height } := by
  unfold Run
  simp only [hdec]
  cases c.NewTransform (srcICC c.EmbeddedSRGB opts decoded) opts.DstProfile opts.Intent with
  | error e => rfl
  | ok xform =>
    simp only
    cases c.TransformPixels xform decoded.Pixels decoded.Width decoded.Height with
    | error e => rfl
    | ok cmykPixels =>
      simp only
      cases c.EncodeCMYK cmykPixels decoded.Width decoded.Height opts.DstProfile
        { Quality := opts.Quality, CMYReduction := opts.CMYReduction } with
      | error e => rfl
      | ok encoded => rfl

/-- When every stage succeeds, `Run` returns the encoder's output with the decoded
dimensions. -/
theorem Run_ok_of_stages {T : Type} (c : Collaborators T) (jpegData : List Byte)
    (opts : Options) (decoded : jpeg.DecodedRGB) (xform : T) (cmykPixels encoded : List Byte)
    (hdec : c.DecodeRGB jpegData = .ok decoded)
    (hnew : c.NewTransform (srcICC c.EmbeddedSRGB opts decoded) opts.DstProfile opts.Intent =
      .ok xform)
    (htr : c.TransformPixels xform decoded.Pixels decoded.Width decoded.Height = .ok cmykPixels)
    (henc : c.EncodeCMYK cmykPixels decoded.Width decoded.Height opts.DstProfile
      { Quality := opts.Quality, CMYReduction := opts.CMYReduction } = .ok encoded) :
    (Run c jpegData opts).1 =
      .ok { Data := encoded, SrcWidth := decoded.Width, SrcHeight := decoded.Height } := by
  rw [Run_of_decoded c jpegData opts decoded hdec]
  simp only [hnew, htr, henc]

theorem srcICC_of_embedded (EmbeddedSRGB : List Byte) (opts : Options)
    (decoded : jpeg.DecodedRGB) (h : opts.SrcProfileOverride = none) :
    srcICC EmbeddedSRGB opts decoded =
      match decoded.ICC with
      | none => EmbeddedSRGB
      | some profile =>
        match color.ParseProfileInfo profile with
        | .ok pi => if pi.ColorSpace = GRAY then EmbeddedSRGB else profile
        | .error _ => profile := by
  unfold srcICC
  simp only [h]
  cases hicc : decoded.ICC with
  | none => simp
  | some profile =>
    cases hp : color.ParseProfileInfo profile with
    | error e => simp [hp]
    | ok pi =>
      by_cases hg : pi.ColorSpace = GRAY
      · simp [hp, hg]
      · simp [hp, hg]

/-- **C21.** Grayscale discard: with no override set, when the embedded profile passes
`ParseProfileInfo` and its data colour space is "GRAY", `Run` hands the bundled profile
`EmbeddedSRGB` to `color.NewTransform`, and step 2 raises no error: the call is made, and
`Run` returns a result whenever the later stages succeed. -/
theorem C21_grayscale_discard {T : Type} (c : Collaborators T) (jpegData : List Byte)
    (opts : Options) (decoded : jpeg.DecodedRGB) (profile : List Byte)
    (info : color.ProfileInfo)
    (hov : opts.SrcProfileOverride = none) (hdec : c.DecodeRGB jpegData = .ok decoded)
    (hicc : decoded.ICC = some profile) (hparse : color.ParseProfileInfo profile = .ok info)
    (hgray : info.ColorSpace = GRAY) :
    srcICC c.EmbeddedSRGB opts decoded = c.EmbeddedSRGB ∧
    (∃ rest, (Run c jpegData opts).2 =
      .DecodeRGB jpegData :: .NewTransform c.EmbeddedSRGB opts.DstProfile opts.Intent :: rest) ∧
    (∀ xform cmykPixels encoded,
      c.NewTransform c.EmbeddedSRGB opts.DstProfile opts.Intent = .ok xform →
      c.TransformPixels xform decoded.Pixels decoded.Width decoded.Height = .ok cmykPixels →
      c.EncodeCMYK cmykPixels decoded.Width decoded.Height opts.DstProfile
        { Quality := opts.Quality, CMYReduction := opts.CMYReduction } = .ok encoded →
      (Run c jpegData opts).1 =
        .ok { Data := encoded, SrcWidth := decoded.Width, SrcHeight := decoded.Height }) := by
  have hsrc : srcICC c.EmbeddedSRGB opts decoded = c.EmbeddedSRGB := by
    rw [srcICC_of_embedded _ _ _ hov, hicc]
    simp only [hparse, hgray, if_true]
  refine ⟨hsrc, ?_, ?_⟩
  · have h := Run_calls_NewTransform c jpegData opts decoded hdec
    rw [hsrc] at h
    exact h
  · intro xform cmykPixels encoded hnew htr henc
    exact Run_ok_of_stages c jpegData opts decoded xform cmykPixels encoded hdec
      (by rw [hsrc]; exact hnew) htr henc

set_option maxRecDepth 20000 in
/-- An image with an embedded 'GRAY' header is converted with the bundled profile. -/
theorem C21_grayscale_discard_witness :
    srcICC (stubWithICC (some grayHeader)).EmbeddedSRGB
      { SrcProfileOverride := none, DstProfile := [9], Quality := 85, CMYReduction := 15,
        Intent := 0 }
      { Width := 1, Height := 1, Pixels := [0, 0, 0], ICC := some grayHeader } = rgbHeader :=
  (C21_grayscale_discard (stubWithICC (some grayHeader)) []
    { SrcProfileOverride := none, DstProfile := [9], Quality := 85, CMYReduction := 15,
      Intent := 0 }
    { Width := 1, Height := 1, Pixels := [0, 0, 0], ICC := some grayHeader } grayHeader
    { Size := 0, Version := "0.0.0", ColorSpace := GRAY, PCS := [0, 0, 0, 0],
      Class := [0, 0, 0, 0] }
    rfl rfl rfl (by decide) rfl).1

/-- **C22.** No-profile fallback: with no override set and no ICC profile embedded in the
decoded image, `Run` hands the bundled profile `EmbeddedSRGB` to `color.NewTransform`. -/
theorem C22_no_profile_fallback {T : Type} (c : Collaborators T) (jpegData : List Byte)
    (opts : Options) (decoded : jpeg.DecodedRGB)
    (hov : opts.SrcProfileOverride = none) (hdec : c.DecodeRGB jpegData = .ok decoded)
    (hicc : decoded.ICC = none) :
    srcICC c.EmbeddedSRGB opts decoded = c.EmbeddedSRGB ∧
    ∃ rest, (Run c jpegData opts).2 =
      .DecodeRGB jpegData :: .NewTransform c.EmbeddedSRGB opts.DstProfile opts.Intent :: rest := by
  have hsrc : srcICC c.EmbeddedSRGB opts decoded = c.EmbeddedSRGB := by
    rw [srcICC_of_embedded _ _ _ hov, hicc]
  refine ⟨hsrc, ?_⟩
  have h := Run_calls_NewTransform c jpegData opts decoded hdec
  rw [hsrc] at h
  exact h

/-- An image with no embedded profile is converted with the bundled profile. -/
theorem C22_no_profile_fallback_witness :
    ∃ rest, (Run stubCollaborators []
      { SrcProfileOverride := none, DstProfile := [9], Quality := 85, CMYReduction := 15,
        Intent := 0 }).2 =
      .DecodeRGB [] :: .NewTransform rgbHeader [9] 0 :: rest :=
  (C22_no_profile_fallback stubCollaborators []
    { SrcProfileOverride := none, DstProfile := [9], Quality := 85, CMYReduction := 15,
      Intent := 0 }
    { Width := 1, Height := 1, Pixels := [0, 0, 0], ICC := none } rfl rfl rfl).2

/-- **C24.** All-or-nothing result: `Run` returns a result exactly when `DecodeRGB`,
`NewTransform`, `TransformPixels` and `EncodeCMYK` all succeed, and the result then has
the encoder's output as `Data` and the decoded width and height (the ones passed to the
encoder) as `SrcWidth` and `SrcHeight`; when a stage fails `Run` returns that stage's
error, with the stage prefix, and no result. -/
theorem C24_all_or_nothing {T : Type} (c : Collaborators T) (jpegData : List Byte)
    (opts : Options) :
    (∀ result, (Run c jpegData opts).1 = .ok result ↔
      ∃ decoded xform cmykPixels encoded,
        c.DecodeRGB jpegData = .ok decoded ∧
        c.NewTransform (srcICC c.EmbeddedSRGB opts decoded) opts.DstProfile opts.Intent =
          .ok xform ∧
        c.TransformPixels xform decoded.Pixels decoded.Width decoded.Height =
          .ok cmykPixels ∧
        c.EncodeCMYK cmykPixels decoded.Width decoded.Height opts.DstProfile
          { Quality := opts.Quality, CMYReduction := opts.CMYReduction } = .ok encoded ∧
        result = { Data := encoded, SrcWidth := decoded.Width, SrcHeight := decoded.Height }) ∧
    (∀ err, c.DecodeRGB jpegData = .error err →
      (Run c jpegData opts).1 = .error (.decode err)) ∧
    (∀ decoded err, c.DecodeRGB jpegData = .ok decoded →
      c.NewTransform (srcICC c.EmbeddedSRGB opts decoded) opts.DstProfile opts.Intent =
        .error err →
      (Run c jpegData opts).1 = .error (.colorTransformSetup err)) ∧
    (∀ decoded xform err, c.DecodeRGB jpegData = .ok decoded →
      c.NewTransform (srcICC c.EmbeddedSRGB opts decoded) opts.DstProfile opts.Intent =
        .ok xform →
      c.TransformPixels xform decoded.Pixels decoded.Width decoded.Height = .error err →
      (Run c jpegData opts).1 = .error (.colorTransform err)) ∧
    (∀ decoded xform cmykPixels err, c.DecodeRGB jpegData = .ok decoded →
      c.NewTransform (srcICC c.EmbeddedSRGB opts decoded) opts.DstProfile opts.Intent =
        .ok xform →
      c.TransformPixels xform decoded.Pixels decoded.Width decoded.Height = .ok cmykPixels →
      c.EncodeCMYK cmykPixels decoded.Width decoded.Height opts.DstProfile
        { Quality := opts.Quality, CMYReduction := opts.CMYReduction } = .error err →
      (Run c jpegData opts).1 = .error (.encode err)) := by
  refine ⟨fun result => ⟨?_, ?_⟩, ?_, ?_, ?_, ?_⟩
  · intro h
    cases hdec : c.DecodeRGB jpegData with
    | error e =>
      unfold Run at h
      simp only [hdec] at h
      cases h
    | ok decoded =>
      rw [Run_of_decoded c jpegData opts decoded hdec] at h
      cases hnew : c.NewTransform (srcICC c.EmbeddedSRGB opts decoded) opts.DstProfile
          opts.Intent with
      | error e => simp only [hnew] at h; cases h
      | ok xform =>
        simp only [hnew] at h
        cases htr : c.TransformPixels xform decoded.Pixels decoded.Width decoded.Height with
        | error e => simp only [htr] at h; cases h
        | ok cmykPixels =>
          simp only [htr] at h
          cases henc : c.EncodeCMYK cmykPixels decoded.Width decoded.Height opts.DstProfile
              { Quality := opts.Quality, CMYReduction := opts.CMYReduction } with
          | error e => simp only [henc] at h; cases h
          | ok encoded =>
            simp only [henc] at h
            injection h with h
            exact ⟨decoded, xform, cmykPixels, encoded, rfl, hnew, htr, henc, h.symm⟩
  · rintro ⟨decoded, xform, cmykPixels, encoded, hdec, hnew, htr, henc, rfl⟩
    exact Run_ok_of_stages c jpegData opts decoded xform cmykPixels encoded hdec hnew htr henc
  · intro err hdec
    unfold Run
    simp only [hdec]
  · intro decoded err hdec hnew
    rw [Run_of_decoded c jpegData opts decoded hdec]
    simp only [hnew]
  · intro decoded xform err hdec hnew htr
    rw [Run_of_decoded c jpegData opts decoded hdec]
    simp only [hnew, htr]
  · intro decoded xform cmykPixels err hdec hnew htr henc
    rw [Run_of_decoded c jpegData opts decoded hdec]
    simp only [hnew, htr, henc]

set_option maxRecDepth 20000 in
/-- With an encoder that fails, `Run` returns the encoder's error and no result. -/
theorem C24_all_or_nothing_witness :
    (Run stubFailingEncoder []
      { SrcProfileOverride := none, DstProfile := [9], Quality := 85, CMYReduction := 15,
        Intent := 0 }).1 = .error (.encode "libjpeg encode: failed") :=
  (C24_all_or_nothing stubFailingEncoder []
    { SrcProfileOverride := none, DstProfile := [9], Quality := 85, CMYReduction := 15,
      Intent := 0 }).2.2.2.2
    { Width := 1, Height := 1, Pixels := [0, 0, 0], ICC := none }
    { hSrc := 129, hDst := 2, hTransform := 7 } [0, 0, 0, 255] "libjpeg encode: failed"
    rfl (by decide) rfl rfl

/-- **C25 (as stated, refuted).** With no override set and an embedded profile of three
bytes, which `ParseProfileInfo` rejects as too short, `Run` returns a result, not an
error, and has called `color.NewTransform` with those three bytes. -/
theorem C25_rejected_profile_is_used :
    color.ParseProfileInfo [1, 2, 3] = .error .tooShort ∧
    Run (stubWithICC (some [1, 2, 3])) []
      { SrcProfileOverride := none, DstProfile := [9], Quality := 85, CMYReduction := 15,
        Intent := 0 } =
      (.ok { Data := [0xFF, 0xD8, 0xFF, 0xD9], SrcWidth := 1, SrcHeight := 1 },
        [.DecodeRGB [], .NewTransform [1, 2, 3] [9] 0, .TransformPixels () [0, 0, 0] 1 1,
          .EncodeCMYK [0, 0, 0, 255] 1 1 [9] { Quality := 85, CMYReduction := 15 },
          .Close ()]) := by
  constructor
  · decide
  · decide

/-- **C25 (amended).** A rejection by the header validator during step 2 does not abort
the conversion: with no override set, when `ParseProfileInfo` rejects the embedded
profile, `Run` ignores the rejection and calls `color.NewTransform` with that embedded
profile unchanged; it returns a result whenever the later stages succeed, and every error
it can return carries one of the stages decode, color transform setup, color transform
or encode. -/
theorem C25_validator_failure_ignored {T : Type} (c : Collaborators T) (jpegData : List Byte)
    (opts : Options) (decoded : jpeg.DecodedRGB) (profile : List Byte)
    (err : color.ProfileError)
    (hov : opts.SrcProfileOverride = none) (hdec : c.DecodeRGB jpegData = .ok decoded)
    (hicc : decoded.ICC = some profile)
    (hparse : color.ParseProfileInfo profile = .error err) :
    srcICC c.EmbeddedSRGB opts decoded = profile ∧
    (∃ rest, (Run c jpegData opts).2 =
      .DecodeRGB jpegData :: .NewTransform profile opts.DstProfile opts.Intent :: rest) ∧
    (∀ xform cmykPixels encoded,
      c.NewTransform profile opts.DstProfile opts.Intent = .ok xform →
      c.TransformPixels xform decoded.Pixels decoded.Width decoded.Height = .ok cmykPixels →
      c.EncodeCMYK cmykPixels decoded.Width decoded.Height opts.DstProfile
        { Quality := opts.Quality, CMYReduction := opts.CMYReduction } = .ok encoded →
      (Run c jpegData opts).1 =
        .ok { Data := encoded, SrcWidth := decoded.Width, SrcHeight := decoded.Height }) ∧
    (∀ e, (Run c jpegData opts).1 = .error e →
      ∃ msg, e = .colorTransformSetup msg ∨ e = .colorTransform msg ∨ e = .encode msg) := by
  have hsrc : srcICC c.EmbeddedSRGB opts decoded = profile := by
    rw [srcICC_of_embedded _ _ _ hov, hicc]
    simp only [hparse]
  refine ⟨hsrc, ?_, ?_, ?_⟩
  · have h := Run_calls_NewTransform c jpegData opts decoded hdec
    rw [hsrc] at h
    exact h
  · intro xform cmykPixels encoded hnew htr henc
    exact Run_ok_of_stages c jpegData opts decoded xform cmykPixels encoded hdec
      (by rw [hsrc]; exact hnew) htr henc
  · intro e he
    rw [Run_of_decoded c jpegData opts decoded hdec] at he
    cases hnew : c.NewTransform (srcICC c.EmbeddedSRGB opts decoded) opts.DstProfile
        opts.Intent with
    | error m =>
      simp only [hnew] at he
      injection he with he
      exact ⟨m, Or.inl he.symm⟩
    | ok xform =>
      simp only [hnew] at he
      cases htr : c.TransformPixels xform decoded.Pixels decoded.Width decoded.Height with
      | error m =>
        simp only [htr] at he
        injection he with he
        exact ⟨m, Or.inr (Or.inl he.symm)⟩
      | ok cmykPixels =>
        simp only [htr] at he
        cases henc : c.EncodeCMYK cmykPixels decoded.Width decoded.Height opts.DstProfile
            { Quality := opts.Quality, CMYReduction := opts.CMYReduction } with
        | error m =>
          simp only [henc] at he
          injection he with he
          exact ⟨m, Or.inr (Or.inr he.symm)⟩
        | ok encoded =>
          simp only [henc] at he
          cases he

/-- A three-byte embedded profile is handed to the transform as it is. -/
theorem C25_validator_failure_ignored_witness :
    ∃ rest, (Run (stubWithICC (some [1, 2, 3])) []
      { SrcProfileOverride := none, DstProfile := [9], Quality := 85, CMYReduction := 15,
        Intent := 0 }).2 =
      .DecodeRGB [] :: .NewTransform [1, 2, 3] [9] 0 :: rest :=
  (C25_validator_failure_ignored (stubWithICC (some [1, 2, 3])) []
    { SrcProfileOverride := none, DstProfile := [9], Quality := 85, CMYReduction := 15,
      Intent := 0 }
    { Width := 1, Height := 1, Pixels := [0, 0, 0], ICC := some [1, 2, 3] } [1, 2, 3]
    .tooShort rfl rfl rfl (by decide)).2.1

/-- The calls made by `Run` when decoding and `NewTransform` succeed: the deferred
`Close` is the last call and the only `Close`. -/
theorem Run_trace_of_transform {T : Type} (c : Collaborators T) (jpegData : List Byte)
    (opts : Options) (decoded : jpeg.DecodedRGB) (xform : T)
    (hdec : c.DecodeRGB jpegData = .ok decoded)
    (hnew : c.NewTransform (srcICC c.EmbeddedSRGB opts decoded) opts.DstProfile opts.Intent =
      .ok xform) :
    ∃ init, (Run c jpegData opts).2 = init ++ [.Close xform] ∧
      (∀ call ∈ init, ∀ t, call ≠ .Close t) ∧
      ∃ rest, init =
        .DecodeRGB jpegData ::
          .NewTransform (srcICC c.EmbeddedSRGB opts decoded) opts.DstProfile opts.Intent ::
          .TransformPixels xform decoded.Pixels decoded.Width decoded.Height :: rest := by
  unfold Run
  simp only [hdec, hnew]
  cases c.TransformPixels xform decoded.Pixels decoded.Width decoded.Height with
  | error e =>
    refine ⟨[.DecodeRGB jpegData, .NewTransform _ _ _, .TransformPixels _ _ _ _], rfl, ?_,
      [], rfl⟩
    intro call hcall t
    simp only [List.mem_cons, List.mem_singleton, List.not_mem_nil, or_false] at hcall
    rcases hcall with rfl | rfl | rfl <;> simp
  | ok cmykPixels =>
    simp only
    cases c.EncodeCMYK cmykPixels decoded.Width decoded.Height opts.DstProfile
      { Quality := opts.Quality, CMYReduction := opts.CMYReduction } with
    | error e =>
      refine ⟨[.DecodeRGB jpegData, .NewTransform _ _ _, .TransformPixels _ _ _ _,
        .EncodeCMYK _ _ _ _ _], rfl, ?_, [_], rfl⟩
      intro call hcall t
      simp only [List.mem_cons, List.mem_singleton, List.not_mem_nil, or_false] at hcall
      rcases hcall with rfl | rfl | rfl | rfl <;> simp
    | ok encoded =>
      refine ⟨[.DecodeRGB jpegData, .NewTransform _ _ _, .TransformPixels _ _ _ _,
        .EncodeCMYK _ _ _ _ _], rfl, ?_, [_], rfl⟩
      intro call hcall t
      simp only [List.mem_cons, List.mem_singleton, List.not_mem_nil, or_false] at hcall
      rcases hcall with rfl | rfl | rfl | rfl <;> simp

theorem closeCalls_append_Close (init : List (Call color.Transform)) (xform : color.Transform)
    (hinit : ∀ call ∈ init, ∀ t, call ≠ .Close t) :
    closeCalls (init ++ [.Close xform]) = (color.Close xform).2 := by
  induction init with
  | nil => simp [closeCalls]
  | cons call rest ih =>
    have hrest := ih (fun x hx => hinit x (List.mem_cons_of_mem _ hx))
    cases call with
    | Close t => exact absurd rfl (hinit _ (List.mem_cons_self _ _) t)
    | DecodeRGB d => simpa [closeCalls] using hrest
    | NewTransform s d i => simpa [closeCalls] using hrest
    | TransformPixels x s w h => simpa [closeCalls] using hrest
    | EncodeCMYK p w h i o => simpa [closeCalls] using hrest

/-- The two outcomes of a `NewTransform` that returns: an error with every handle opened
so far closed again, or a transform holding three non-NULL handles, all still open. -/
theorem NewTransform_returns (lib : color.Lcms2) (srcICC dstICC : List Byte) (intent : Int)
    (result : Except String color.Transform) (calls : List color.LcmsCall)
    (h : color.NewTransform lib srcICC dstICC intent = some (result, calls)) :
    (∃ msg, result = .error msg ∧ color.openHandles calls = ([], [])) ∨
    (∃ t, result = .ok t ∧ t.hSrc ≠ 0 ∧ t.hDst ≠ 0 ∧ t.hTransform ≠ 0 ∧
      color.openHandles calls = ([t.hDst, t.hSrc], [t.hTransform]) ∧
      calls = [.cmsOpenProfileFromMem srcICC t.hSrc, .cmsOpenProfileFromMem dstICC t.hDst,
        .cmsCreateTransform t.hSrc t.hDst intent t.hTransform]) := by
  unfold color.NewTransform at h
  by_cases h1 : srcICC.length = 0
  · simp [h1] at h
  · simp only [h1, if_false] at h
    by_cases h2 : lib.cmsOpenProfileFromMem srcICC = 0
    · simp only [h2, if_true, Option.some.injEq, Prod.mk.injEq] at h
      obtain ⟨rfl, rfl⟩ := h
      exact Or.inl ⟨_, rfl, by simp [color.openHandles, color.trackHandle]⟩
    · simp only [h2, if_false] at h
      by_cases h3 : dstICC.length = 0
      · simp [h3] at h
      · simp only [h3, if_false] at h
        by_cases h4 : lib.cmsOpenProfileFromMem dstICC = 0
        · simp only [h4, if_true, Option.some.injEq, Prod.mk.injEq] at h
          obtain ⟨rfl, rfl⟩ := h
          exact Or.inl ⟨_, rfl, by simp [color.openHandles, color.trackHandle, h2]⟩
        · simp only [h4, if_false] at h
          by_cases h5 : lib.cmsCreateTransform (lib.cmsOpenProfileFromMem srcICC)
              (lib.cmsOpenProfileFromMem dstICC) intent = 0
          · simp only [h5, if_true, Option.some.injEq, Prod.mk.injEq] at h
            obtain ⟨rfl, rfl⟩ := h
            exact Or.inl ⟨_, rfl, by simp [color.openHandles, color.trackHandle, h2, h4]⟩
          · simp only [h5, if_false, Option.some.injEq, Prod.mk.injEq] at h
            obtain ⟨rfl, rfl⟩ := h
            exact Or.inr ⟨_, rfl, h2, h4, h5,
              by simp [color.openHandles, color.trackHandle, h2, h4, h5], rfl⟩

/-- `Close` on a transform with three non-NULL handles deletes the transform and closes
both profiles, and leaves the three fields NULL, so that a second `Close` does nothing. -/
theorem Close_of_open (t : color.Transform) (h1 : t.hSrc ≠ 0) (h2 : t.hDst ≠ 0)
    (h3 : t.hTransform ≠ 0) :
    color.Close t = ({ hSrc := 0, hDst := 0, hTransform := 0 },
      [.cmsDeleteTransform t.hTransform, .cmsCloseProfile t.hDst, .cmsCloseProfile t.hSrc]) ∧
    color.Close (color.Close t).1 = ({ hSrc := 0, hDst := 0, hTransform := 0 }, []) := by
  have e : color.Close t = ({ hSrc := 0, hDst := 0, hTransform := 0 },
      [.cmsDeleteTransform t.hTransform, .cmsCloseProfile t.hDst, .cmsCloseProfile t.hSrc]) := by
    simp [color.Close, h1, h2, h3]
  refine ⟨e, ?_⟩
  rw [e]
  simp [color.Close]

/-- **C26.** Guaranteed release. In a run of `Run` whose `NewTransform` returns (it does
not panic on an empty profile): when it succeeds, the deferred `Close` of the transform
is the last call `Run` makes and its only `Close`, whether `TransformPixels` fails,
`EncodeCMYK` fails or the conversion succeeds; when it fails, every profile handle it
had opened is closed again and `Run` makes no further call; in both cases the lcms2
calls of `NewTransform` followed by those of the `Close` made by `Run` leave no profile
handle and no transform handle open. When decoding fails no handle is acquired. -/
theorem C26_guaranteed_release (lib : color.Lcms2) (c : Collaborators color.Transform)
    (jpegData : List Byte) (opts : Options) :
    (∀ err, c.DecodeRGB jpegData = .error err →
      (Run c jpegData opts).2 = [.DecodeRGB jpegData]) ∧
    (∀ decoded result calls, c.DecodeRGB jpegData = .ok decoded →
      color.NewTransform lib (srcICC c.EmbeddedSRGB opts decoded) opts.DstProfile opts.Intent =
        some (result, calls) →
      c.NewTransform (srcICC c.EmbeddedSRGB opts decoded) opts.DstProfile opts.Intent =
        result →
      (∀ xform, result = .ok xform →
        ∃ init, (Run c jpegData opts).2 = init ++ [.Close xform] ∧
          ∀ call ∈ init, ∀ t, call ≠ .Close t) ∧
      (∀ msg, result = .error msg →
        color.openHandles calls = ([], []) ∧
        (Run c jpegData opts).2 =
          [.DecodeRGB jpegData,
            .NewTransform (srcICC c.EmbeddedSRGB opts decoded) opts.DstProfile opts.Intent]) ∧
      color.openHandles (calls ++ closeCalls (Run c jpegData opts).2) = ([], [])) := by
  constructor
  · intro err hdec
    unfold Run
    simp only [hdec]
  · intro decoded result calls hdec hlib hc
    have herr : ∀ msg, result = .error msg →
        (Run c jpegData opts).2 =
          [.DecodeRGB jpegData,
            .NewTransform (srcICC c.EmbeddedSRGB opts decoded) opts.DstProfile opts.Intent] := by
      intro msg hmsg
      rw [hmsg] at hc
      unfold Run
      simp only [hdec, hc]
    rcases NewTransform_returns lib _ _ _ result calls hlib with
      ⟨msg, hres, hopen⟩ | ⟨t, hres, h1, h2, h3, _, hcalls⟩
    · refine ⟨?_, ?_, ?_⟩
      · intro xform hx
        rw [hres] at hx
        cases hx
      · intro m hm
        exact ⟨hopen, herr m hm⟩
      · rw [herr msg hres]
        simpa [closeCalls] using hopen
    · rw [hres] at hc
      obtain ⟨init, htrace, hinit, _⟩ := Run_trace_of_transform c jpegData opts decoded t hdec hc
      refine ⟨?_, ?_, ?_⟩
      · intro xform hx
        rw [hres] at hx
        injection hx with hx
        subst hx
        exact ⟨init, htrace, hinit⟩
      · intro m hm
        rw [hres] at hm
        cases hm
      · rw [htrace, closeCalls_append_Close init t hinit, (Close_of_open t h1 h2 h3).1, hcalls]
        simp [color.openHandles, color.trackHandle, h1, h2, h3]

set_option maxRecDepth 20000 in
/-- With an encoder that fails, the transform built on `stubLcms2` is closed and no handle
stays open. -/
theorem C26_guaranteed_release_witness :
    color.openHandles
      ([.cmsOpenProfileFromMem rgbHeader 129, .cmsOpenProfileFromMem [9] 2,
          .cmsCreateTransform 129 2 0 7] ++
        closeCalls (Run stubFailingEncoder []
          { SrcProfileOverride := none, DstProfile := [9], Quality := 85, CMYReduction := 15,
            Intent := 0 }).2) = ([], []) :=
  ((C26_guaranteed_release color.stubLcms2 stubFailingEncoder []
    { SrcProfileOverride := none, DstProfile := [9], Quality := 85, CMYReduction := 15,
      Intent := 0 }).2
    { Width := 1, Height := 1, Pixels := [0, 0, 0], ICC := none }
    (.ok { hSrc := 129, hDst := 2, hTransform := 7 })
    [.cmsOpenProfileFromMem rgbHeader 129, .cmsOpenProfileFromMem [9] 2,
      .cmsCreateTransform 129 2 0 7]
    rfl (by decide) (by decide)).2.2

/-- With a `Quality` in `[1, 100]` and a non-zero `CMYReduction`, `EncodeCMYK` computes
the tables of `GenerateQuantTables` on the options it is given. -/
theorem encoderTables_eq (quality cmyReduction : Int) (hq : quality ≠ 0) :
    jpeg.encoderTables { Quality := quality, CMYReduction := cmyReduction } =
      jpeg.GenerateQuantTables quality (if cmyReduction = 0 then 15 else cmyReduction) := by
  unfold jpeg.encoderTables
  by_cases hr : cmyReduction = 0
  · simp [hq, hr]
  · simp [hq, hr]

/-- `EncodeCMYK` on non-empty pixels of the expected size calls `encode_cmyk_jpeg` with the
tables of `encoderTables`. -/
theorem EncodeCMYK_call (cenc : jpeg.EncodeCall → Except String (List Byte))
    (pixels : List Byte) (width height : Int) (iccProfile : List Byte)
    (opts : jpeg.EncoderOptions)
    (hsize : (pixels.length : Int) = wrapInt64 (wrapInt64 (width * height) * 4))
    (hne : pixels.length ≠ 0) :
    jpeg.EncodeCMYK cenc pixels width height iccProfile opts =
      some (match cenc
          { pixels := pixels, width := width, height := height,
            cmy_qtable := (jpeg.encoderTables opts).1, k_qtable := (jpeg.encoderTables opts).2,
            icc := if iccProfile.length > 0 then some iccProfile else none } with
        | .error msg => .error ("libjpeg encode: " ++ msg)
        | .ok output => .ok output) := by
  unfold jpeg.EncodeCMYK
  simp only [hsize, ne_eq, not_true_eq_false, if_false, hne]
  split <;> rfl

set_option maxRecDepth 20000 in
/-- **C23 (as stated, refuted).** With `Quality = 100` and `CMYReduction = 0`, `Run` gives
`EncodeCMYK` the options `{100, 0}`, and `EncodeCMYK` puts its default 15 in place of the
zero: it encodes with the CMY table of quality 85 (first entry 5) and the K table of
quality 100 (first entry 1), not with `GenerateQuantTables 100 0`, whose two tables are
the quality-100 table (first entry 1). -/
theorem C23_zero_reduction_replaced :
    (Run stubCollaborators []
      { SrcProfileOverride := none, DstProfile := [9], Quality := 100, CMYReduction := 0,
        Intent := 0 }).2 =
      [.DecodeRGB [], .NewTransform rgbHeader [9] 0, .TransformPixels () [0, 0, 0] 1 1,
        .EncodeCMYK [0, 0, 0, 255] 1 1 [9] { Quality := 100, CMYReduction := 0 },
        .Close ()] ∧
    jpeg.EncodeCMYK jpeg.recordTables [0, 0, 0, 255] 1 1 [9]
      { Quality := 100, CMYReduction := 0 } = some (.ok [5, 1]) ∧
    (jpeg.GenerateQuantTables 100 0).1 0 = 1 ∧ (jpeg.GenerateQuantTables 100 0).2 0 = 1 ∧
    jpeg.encoderTables { Quality := 100, CMYReduction := 0 } ≠
      jpeg.GenerateQuantTables 100 0 := by
  have h1 : (jpeg.encoderTables { Quality := 100, CMYReduction := 0 }).1 0 = 5 := by decide
  have h2 : (jpeg.GenerateQuantTables 100 0).1 0 = 1 := by decide
  refine ⟨by decide, by decide, h2, by decide, fun h => ?_⟩
  rw [h, h2] at h1
  exact absurd h1 (by decide)

/-- **C23 (amended).** For every `Quality` in `[1, 100]` and every `CMYReduction`: when
the stages before encoding succeed, `Run` calls `EncodeCMYK` with the options
`{Quality, CMYReduction}`, and `EncodeCMYK` encodes with
`GenerateQuantTables(Quality, CMYReduction)` when `CMYReduction` is not zero, and with
`GenerateQuantTables(Quality, 15)` when it is zero (its default takes the place of a
zero); these are the tables it passes to `encode_cmyk_jpeg`. -/
theorem C23_encoder_tables {T : Type} (c : Collaborators T) (jpegData : List Byte)
    (opts : Options) (decoded : jpeg.DecodedRGB) (xform : T) (cmykPixels : List Byte)
    (hq : 1 ≤ opts.Quality ∧ opts.Quality ≤ 100)
    (hdec : c.DecodeRGB jpegData = .ok decoded)
    (hnew : c.NewTransform (srcICC c.EmbeddedSRGB opts decoded) opts.DstProfile opts.Intent =
      .ok xform)
    (htr : c.TransformPixels xform decoded.Pixels decoded.Width decoded.Height =
      .ok cmykPixels) :
    (Run c jpegData opts).2 =
      [.DecodeRGB jpegData,
        .NewTransform (srcICC c.EmbeddedSRGB opts decoded) opts.DstProfile opts.Intent,
        .TransformPixels xform decoded.Pixels decoded.Width decoded.Height,
        .EncodeCMYK cmykPixels decoded.Width decoded.Height opts.DstProfile
          { Quality := opts.Quality, CMYReduction := opts.CMYReduction },
        .Close xform] ∧
    jpeg.encoderTables { Quality := opts.Quality, CMYReduction := opts.CMYReduction } =
      jpeg.GenerateQuantTables opts.Quality
        (if opts.CMYReduction = 0 then 15 else opts.CMYReduction) ∧
    (opts.CMYReduction ≠ 0 →
      jpeg.encoderTables { Quality := opts.Quality, CMYReduction := opts.CMYReduction } =
        jpeg.GenerateQuantTables opts.Quality opts.CMYReduction) ∧
    (∀ cenc : jpeg.EncodeCall → Except String (List Byte),
      (cmykPixels.length : Int) = wrapInt64 (wrapInt64 (decoded.Width * decoded.Height) * 4) →
      cmykPixels.length ≠ 0 →
      ∃ call : jpeg.EncodeCall,
        (call.cmy_qtable, call.k_qtable) =
          jpeg.GenerateQuantTables opts.Quality
            (if opts.CMYReduction = 0 then 15 else opts.CMYReduction) ∧
        jpeg.EncodeCMYK cenc cmykPixels decoded.Width decoded.Height opts.DstProfile
            { Quality := opts.Quality, CMYReduction := opts.CMYReduction } =
          some (match cenc call with
            | .error msg => .error ("libjpeg encode: " ++ msg)
            | .ok output => .ok output)) := by
  have hq0 : opts.Quality ≠ 0 := by omega
  have htab := encoderTables_eq opts.Quality opts.CMYReduction hq0
  refine ⟨?_, htab, ?_, ?_⟩
  · unfold Run
    simp only [hdec, hnew, htr]
    cases c.EncodeCMYK cmykPixels decoded.Width decoded.Height opts.DstProfile
      { Quality := opts.Quality, CMYReduction := opts.CMYReduction } with
    | error e => rfl
    | ok encoded => rfl
  · intro hr
    rw [htab, if_neg hr]
  · intro cenc hsize hne
    refine ⟨_, ?_, EncodeCMYK_call cenc cmykPixels decoded.Width decoded.Height
      opts.DstProfile _ hsize hne⟩
    rw [← htab]

set_option maxRecDepth 20000 in
/-- At quality 85 with reduction 15 the encoder uses `GenerateQuantTables 85 15`. -/
theorem C23_encoder_tables_witness :
    jpeg.encoderTables { Quality := 85, CMYReduction := 15 } =
      jpeg.GenerateQuantTables 85 15 :=
  (C23_encoder_tables stubCollaborators []
    { SrcProfileOverride := none, DstProfile := [9], Quality := 85, CMYReduction := 15,
      Intent := 0 }
    { Width := 1, Height := 1, Pixels := [0, 0, 0], ICC := none } () [0, 0, 0, 255]
    (by decide) rfl rfl rfl).2.2.1 (by decide)

end pipeline

/-! The ICC marker codec: duplicated chunks, and the chunking done by the encoder -/

namespace jpeg

/-- **C27.** `ExtractICC` returns profile bytes for two markers that both carry the
sequence number 1 of 2: the sequence numbers of the recognized markers are 1, 1 and not
1, 2, chunk 2 is missing, and the bytes returned are the two payloads one after the
other. -/
theorem C27_duplicate_sequence_accepted :
    duplicatedMarkers.map recognized = [true, true] ∧
    duplicatedMarkers.map seqOf = [1, 1] ∧
    duplicatedMarkers.map countOf = [2, 2] ∧
    ExtractICC duplicatedMarkers = .ok (some [65, 66]) := by
  decide

theorem MAX_CHUNK_DATA_eq : MAX_CHUNK_DATA = maxChunkDataSize := by decide

/-- The profile bytes that `write_icc_markers` copies into marker `i` are the piece that
`ChunkICC` puts in chunk `i`. -/
theorem take_drop_eq_pieceAt (icc : List Byte) (i : Nat) :
    (icc.drop (i * MAX_CHUNK_DATA)).take
        (if icc.length - i * MAX_CHUNK_DATA > MAX_CHUNK_DATA then MAX_CHUNK_DATA
          else icc.length - i * MAX_CHUNK_DATA) =
      pieceAt icc i := by
  rw [MAX_CHUNK_DATA_eq]
  unfold pieceAt
  rw [List.drop_take]
  have e : (i + 1) * maxChunkDataSize - i * maxChunkDataSize = maxChunkDataSize := by
    rw [Nat.succ_mul]; omega
  rw [e]
  split
  · rfl
  · rename_i h
    rw [List.take_of_length_le (by rw [List.length_drop]),
      List.take_of_length_le (by rw [List.length_drop]; omega)]

/-- `write_icc_markers` writes the payloads of the loop of `ChunkICC`, for the chunk
count clamped to 255. -/
theorem write_icc_markers_eq (icc : List Byte) :
    write_icc_markers icc =
      (List.range (if numChunksOf icc > 255 then 255 else numChunksOf icc)).map
        (chunkAt icc (if numChunksOf icc > 255 then 255 else numChunksOf icc)) := by
  unfold write_icc_markers
  simp only [take_drop_eq_pieceAt]
  rw [MAX_CHUNK_DATA_eq]
  apply List.map_congr_left
  intro i _
  rw [chunkAt_eq]
  rfl

/-- The encoder chunks as `ChunkICC` does whenever `ChunkICC` succeeds. -/
theorem write_icc_markers_of_ChunkICC (profile : List Byte) (payloads : List (List Byte))
    (hok : ChunkICC profile = .ok payloads) :
    write_icc_markers profile = payloads ∧
    iccMarkersWritten (if profile.length > 0 then some profile else none) = payloads := by
  have h0 : profile.length ≠ 0 := by
    intro h
    simp [ChunkICC, h] at hok
  have hn : numChunksOf profile ≤ 255 := by
    by_contra hcon
    have hgt : (profile.length + maxChunkDataSize - 1) / maxChunkDataSize > 255 := by
      unfold numChunksOf at hcon; omega
    simp [ChunkICC, h0, hgt] at hok
  rw [ChunkICC_ok profile h0 hn] at hok
  injection hok with hok
  have hw : write_icc_markers profile = payloads := by
    rw [write_icc_markers_eq, if_neg (by omega), hok]
  refine ⟨hw, ?_⟩
  have hpos : profile.length > 0 := by omega
  simp only [hpos, if_true, iccMarkersWritten, hw]

/-- For a profile that needs more than 255 chunks, `write_icc_markers` writes the 255
chunks of the first `255 * 65519` bytes, from which `ExtractICC` reassembles exactly
those bytes, with no error. -/
theorem write_icc_markers_truncates (profile : List Byte)
    (hbig : profile.length > 255 * 65519) :
    (write_icc_markers profile).length = 255 ∧
    ExtractICC (write_icc_markers profile) = .ok (some (profile.take (255 * 65519))) := by
  have hn : numChunksOf profile > 255 := by
    unfold numChunksOf maxChunkDataSize; omega
  have hw : write_icc_markers profile = (List.range 255).map (chunkAt profile 255) := by
    rw [write_icc_markers_eq, if_pos hn]
  have hlenQ : (profile.take (255 * 65519)).length = 255 * 65519 := by
    rw [List.length_take]; omega
  have hnQ : numChunksOf (profile.take (255 * 65519)) = 255 := by
    unfold numChunksOf maxChunkDataSize
    rw [hlenQ]
  have hchunks : (List.range 255).map (chunkAt profile 255) =
      (List.range 255).map (chunkAt (profile.take (255 * 65519)) 255) := by
    apply List.map_congr_left
    intro i hi
    have hi : i < 255 := List.mem_range.mp hi
    rw [chunkAt_eq, chunkAt_eq]
    congr 1
    unfold pieceAt
    rw [List.take_take, Nat.min_eq_left (by unfold maxChunkDataSize; omega)]
  refine ⟨by rw [hw]; simp, ?_⟩
  rw [hw, hchunks]
  have h := ExtractICC_perm_chunks (profile.take (255 * 65519)) (by rw [hlenQ]; decide)
    (by rw [hnQ]) ((List.range 255).map (chunkAt (profile.take (255 * 65519)) 255))
    (by rw [hnQ])
  exact h

/-- **C28.** For the profile of `255 * 65519 + 1` bytes, which needs 256 chunks and on
which `ChunkICC` fails with the capacity error, the encoder does embed a truncated
profile: `write_icc_markers`, called for it by `encode_cmyk_jpeg`, clamps the chunk count
to 255 and writes 255 markers, from which `ExtractICC` returns the first `255 * 65519`
bytes with no error. -/
theorem C28_encoder_embeds_truncated_profile :
    profile256.length = 255 * 65519 + 1 ∧
    ChunkICC profile256 = .error (.tooLarge 256) ∧
    (iccMarkersWritten (some profile256)).length = 255 ∧
    ExtractICC (iccMarkersWritten (some profile256)) =
      .ok (some (List.replicate (255 * 65519) 0)) ∧
    List.replicate (255 * 65519) 0 ≠ profile256 := by
  have hlen : profile256.length = 255 * 65519 + 1 := by
    unfold profile256
    rw [List.length_replicate]
  have hbig : profile256.length > 255 * 65519 := by rw [hlen]; decide
  have hpos : profile256.length > 0 := by rw [hlen]; decide
  have htake : profile256.take (255 * 65519) = List.replicate (255 * 65519) 0 := by
    unfold profile256
    rw [List.take_replicate, Nat.min_eq_left (by decide)]
  have hwritten : iccMarkersWritten (some profile256) = write_icc_markers profile256 := by
    simp only [iccMarkersWritten, hpos, if_true]
  obtain ⟨h255, hext⟩ := write_icc_markers_truncates profile256 hbig
  refine ⟨hlen, ?_, ?_, ?_, ?_⟩
  · unfold ChunkICC
    rw [hlen, if_neg (by decide)]
    simp only
    rw [if_pos (by decide)]
    decide
  · rw [hwritten, h255]
  · rw [hwritten, hext, htake]
  · intro h
    have h2 := congrArg List.length h
    rw [hlen, List.length_replicate] at h2
    exact absurd h2 (by decide)

end jpeg

/-! The quantization tables: CMY against K -/

namespace jpeg

/-- The scale factor does not increase when the clamped quality grows, also across the
switch of formula at 50: `floor(5000 / 49) = 102 ≥ 100 = 200 - 2 * 50`. -/
theorem specScaleFactor_antitone (q1 q2 : Int) (h : specQuality q1 ≤ specQuality q2) :
    specScaleFactor q2 ≤ specScaleFactor q1 := by
  have h1 : 1 ≤ specQuality q1 ∧ specQuality q1 ≤ 100 := by unfold specQuality; omega
  have h2 : 1 ≤ specQuality q2 ∧ specQuality q2 ≤ 100 := by unfold specQuality; omega
  unfold specScaleFactor
  generalize specQuality q1 = a at h h1 ⊢
  generalize specQuality q2 = b at h h2 ⊢
  by_cases ha : a < 50
  · rw [if_pos ha]
    by_cases hb : b < 50
    · rw [if_pos hb]
      have hx0 : 0 ≤ 5000 / b := Int.ediv_nonneg (by decide) (by omega)
      have hxb : 5000 / b * b ≤ 5000 := Int.ediv_mul_le 5000 (by omega)
      have hxa : 5000 / b * a ≤ 5000 / b * b := Int.mul_le_mul_of_nonneg_left h hx0
      exact Int.le_ediv_of_mul_le (by omega) (by omega)
    · rw [if_neg hb]
      have h102 : (102 : Int) ≤ 5000 / a := Int.le_ediv_of_mul_le (by omega) (by omega)
      omega
  · have hb : ¬ b < 50 := by omega
    rw [if_neg ha, if_neg hb]
    omega

/-- For a non-negative entry below `2^31`, the value stored does not decrease when the
scale factor grows. -/
theorem entryOf_mono (b s1 s2 : Int) (hb0 : 0 ≤ b) (hb : b < 2 ^ 31) (hs0 : 0 ≤ s1)
    (hs : s1 ≤ s2) (hs2 : s2 ≤ 5000) : entryOf b s1 ≤ entryOf b s2 := by
  have e1 := entryOf_eq_spec b s1 hs0 (by omega) hb0 hb
  have e2 := entryOf_eq_spec b s2 (by omega) hs2 hb0 hb
  have hmul : b * s1 ≤ b * s2 := Int.mul_le_mul_of_nonneg_left hs hb0
  have hdiv : (b * s1 + 50) / 100 ≤ (b * s2 + 50) / 100 :=
    Int.ediv_le_ediv (by decide) (by omega)
  have hle : (entryOf b s1 : Int) ≤ (entryOf b s2 : Int) := by
    rw [e1, e2]
    omega
  exact_mod_cast hle

theorem stdLuminanceQuant_range : ∀ i, 0 ≤ stdLuminanceQuant i ∧ stdLuminanceQuant i < 2 ^ 31 := by
  decide

/-- On the standard table `ScaleQuantTable` is entrywise non-increasing in the clamped
quality. -/
theorem ScaleQuantTable_std_antitone (q1 q2 : Int) (h : specQuality q1 ≤ specQuality q2)
    (i : Fin 64) :
    ScaleQuantTable stdLuminanceQuant q2 i ≤ ScaleQuantTable stdLuminanceQuant q1 i := by
  rw [ScaleQuantTable_apply, ScaleQuantTable_apply, scaleOf_eq_spec, scaleOf_eq_spec]
  exact entryOf_mono _ _ _ (stdLuminanceQuant_range i).1 (stdLuminanceQuant_range i).2
    (specScaleFactor_bounds q2).1 (specScaleFactor_antitone q1 q2 h)
    (specScaleFactor_bounds q1).2

set_option maxRecDepth 20000 in
/-- **C29 (as stated, refuted).** With `quality = -2^63` (the least `int`) and
`cmyReduction = 1`, the difference `quality - cmyReduction` overflows and wraps to
`2^63 - 1`, which clamps to quality 100: the first entry of the CMY table is 1, below
the first entry 255 of the K table (quality clamped to 1). -/
theorem C29_overflow_counterexample :
    (0 : Int) ≤ 1 ∧
    (GenerateQuantTables (-2 ^ 63) 1).1 0 = 1 ∧ (GenerateQuantTables (-2 ^ 63) 1).2 0 = 255 ∧
    ¬ ∀ i, (GenerateQuantTables (-2 ^ 63) 1).2 i ≤ (GenerateQuantTables (-2 ^ 63) 1).1 i := by
  have h1 : (GenerateQuantTables (-2 ^ 63) 1).1 0 = 1 := by decide
  have h2 : (GenerateQuantTables (-2 ^ 63) 1).2 0 = 255 := by decide
  refine ⟨by decide, h1, h2, fun h => ?_⟩
  have h0 := h 0
  rw [h1, h2] at h0
  exact absurd h0 (by decide)

/-- **C29 (amended).** CMY is quantized at least as heavily as K: for all `int` values
`quality` and `cmyReduction ≥ 0` whose difference `quality - cmyReduction` does not
overflow (it is at least `-2^63`), with `(cmy, k) = GenerateQuantTables quality
cmyReduction`, `cmy[i] ≥ k[i]` for every `i`; and `ScaleQuantTable` on the standard table
is entrywise non-increasing in the quality, for all integer qualities, across the switch
of formula at 50 and the clamps at 1 and 100. -/
theorem C29_cmy_at_least_k :
    (∀ quality cmyReduction : Int, 0 ≤ cmyReduction → quality < 2 ^ 63 →
      -2 ^ 63 ≤ quality - cmyReduction →
      ∀ i, (GenerateQuantTables quality cmyReduction).2 i ≤
        (GenerateQuantTables quality cmyReduction).1 i) ∧
    (∀ q1 q2 : Int, q1 ≤ q2 →
      ∀ i, ScaleQuantTable stdLuminanceQuant q2 i ≤ ScaleQuantTable stdLuminanceQuant q1 i) := by
  constructor
  · intro quality cmyReduction hr hq hlow i
    rw [GenerateQuantTables_of_range quality cmyReduction hlow (by omega)]
    exact ScaleQuantTable_std_antitone _ _ (by unfold specQuality; omega) i
  · intro q1 q2 h i
    exact ScaleQuantTable_std_antitone q1 q2 (by unfold specQuality; omega) i

set_option maxRecDepth 20000 in
/-- At quality 85 with reduction 15 the first CMY entry, 10, is at least the first K
entry, 5. -/
theorem C29_cmy_at_least_k_witness :
    (GenerateQuantTables 85 15).2 0 ≤ (GenerateQuantTables 85 15).1 0 ∧
      (GenerateQuantTables 85 15).1 0 = 10 ∧ (GenerateQuantTables 85 15).2 0 = 5 :=
  ⟨C29_cmy_at_least_k.1 85 15 (by decide) (by decide) (by decide) 0, by decide, by decide⟩

end jpeg

end RGBtoCMYK
